import Mathlib

/-!
# Verification of the uns3 S3 client core

Shallow embedding of the request-signing and request-orchestration engine of
the uns3 repository (src/core/signer.ts, src/client.ts and helpers), together
with theorems settling the frozen claims C1 - C10.

Conventions of the embedding:
* JS strings are Lean `String`s; every string operation is implemented
  explicitly over `List Char` (ASCII-faithful models of the JS operations the
  source uses), so that all definitions evaluate by kernel reduction.
* JS whitespace handling is modelled for the ASCII whitespace characters
  (space, tab, CR, LF), which covers the header values and XML payloads the
  client manipulates.
* machine numbers that the source keeps integral (HTTP statuses, delays in
  milliseconds, part numbers, byte values) are `Nat` / `Int`; the value of
  `Math.random()` is an explicit rational parameter `r` with `0 <= r < 1`.
* the Fetch `Headers` container, whose observable behaviour the signer relies
  on, is modelled per the Fetch specification: names are matched
  case-insensitively, values are trimmed when added, iteration sorts names
  and combines multiple values with ", ".
* platform primitives (WebCrypto SHA-256 / HMAC digests, `Date.parse`,
  `Number(...)` parsing) are taken as explicit function parameters; everything
  the repository itself computes is implemented concretely.
-/

/-! ## Character and string primitives (ASCII models of the JS operations) -/

/-- ASCII whitespace, the characters the source's `\s`, `trim` and Fetch
header-value normalization act on in the inputs this client handles. -/
def isWsChar (c : Char) : Bool :=
  c = ' ' || c = '\t' || c = '\r' || c = '\n'

/-- ASCII lower-casing of one character (JS `toLowerCase` on ASCII data). -/
def lowerChar (c : Char) : Char :=
  if 'A' ≤ c ∧ c ≤ 'Z' then Char.ofNat (c.toNat + 32) else c

/-- ASCII upper-casing of one character (JS `toUpperCase` on ASCII data). -/
def upperChar (c : Char) : Char :=
  if 'a' ≤ c ∧ c ≤ 'z' then Char.ofNat (c.toNat - 32) else c

/-- Lower-case a string (JS `String.prototype.toLowerCase` on ASCII data). -/
def lowerStr (s : String) : String :=
  String.mk (s.data.map lowerChar)

/-- Upper-case a string (JS `String.prototype.toUpperCase` on ASCII data). -/
def upperStr (s : String) : String :=
  String.mk (s.data.map upperChar)

/-- Drop leading whitespace characters. -/
def dropLeadWs : List Char → List Char
  | [] => []
  | c :: rest => if isWsChar c then dropLeadWs rest else c :: rest

/-- JS `String.prototype.trim`: drop leading and trailing whitespace. -/
def trimChars (l : List Char) : List Char :=
  ((dropLeadWs l).reverse |> dropLeadWs).reverse

/-- String wrapper for `trimChars`. -/
def trimWs (s : String) : String :=
  String.mk (trimChars s.data)

/-- One step of the model of the JS regex replacement `replace(/\s+/g, " ")`:
the boolean records whether the previous character was whitespace (so a run
is replaced by a single space). -/
def collapseWsAux : Bool → List Char → List Char
  | _, [] => []
  | prevWs, c :: rest =>
    if isWsChar c then
      if prevWs then collapseWsAux true rest
      else ' ' :: collapseWsAux true rest
    else c :: collapseWsAux false rest

/-- JS `replace(/\s+/g, " ")`: collapse every whitespace run to one space. -/
def collapseWs (l : List Char) : List Char :=
  collapseWsAux false l

/-- Is `pat` a prefix of `l`?  (Explicit model of JS string matching.) -/
def hasPfx : List Char → List Char → Bool
  | [], _ => true
  | _ :: _, [] => false
  | p :: ps, c :: cs => p = c && hasPfx ps cs

/-- Index of the first occurrence of `pat` inside `l`, if any. -/
def findSub (pat : List Char) : List Char → Option Nat
  | [] => if hasPfx pat [] then some 0 else none
  | c :: rest =>
    if hasPfx pat (c :: rest) then some 0
    else (findSub pat rest).map (· + 1)

/-- Fuel-driven worker for `replaceAll`; the fuel is the length of the text,
enough because the pattern is non-empty in every use. Models the JS global
string replacement (leftmost, non-overlapping). -/
def replaceAllAux (pat repl : List Char) : Nat → List Char → List Char
  | 0, l => l
  | _ + 1, [] => []
  | fuel + 1, c :: rest =>
    if hasPfx pat (c :: rest) then
      repl ++ replaceAllAux pat repl fuel ((c :: rest).drop pat.length)
    else
      c :: replaceAllAux pat repl fuel rest

/-- JS `String.prototype.replaceAll` (equivalently `replace` with a global
literal pattern). -/
def replaceAll (pat repl text : List Char) : List Char :=
  replaceAllAux pat repl text.length text

/-- String wrapper for `replaceAll`. -/
def replaceAllStr (pat repl s : String) : String :=
  String.mk (replaceAll pat.data repl.data s.data)

/-- JS `String.prototype.split` on the single-character separator `sep`. -/
def splitOnChar (sep : Char) : List Char → List (List Char)
  | [] => [[]]
  | c :: rest =>
    let tail := splitOnChar sep rest
    if c = sep then [] :: tail
    else
      match tail with
      | [] => [[c]]
      | t :: ts => (c :: t) :: ts

/-- JS `Array.prototype.join` over strings. -/
def joinWith (sep : List Char) : List (List Char) → List Char
  | [] => []
  | [x] => x
  | x :: y :: rest => x ++ sep ++ joinWith sep (y :: rest)

/-- String wrapper for `joinWith` (JS `array.join(sep)`). -/
def joinStr (sep : String) (l : List String) : String :=
  String.mk (joinWith sep.data (l.map String.data))

/-- JS `String.prototype.startsWith` for a one character pattern. -/
def startsWithChar (c : Char) (s : String) : Bool :=
  match s.data with
  | [] => false
  | d :: _ => d = c

/-- JS `String.prototype.endsWith` for a one character pattern. -/
def endsWithChar (c : Char) (s : String) : Bool :=
  match s.data.reverse with
  | [] => false
  | d :: _ => d = c

/-- Lexicographic comparison of strings by character code, the order JS
`Array.prototype.sort()` without comparator and the Fetch header sort use. -/
def strLe (a b : String) : Bool :=
  go a.data b.data
where
  go : List Char → List Char → Bool
    | [], _ => true
    | _ :: _, [] => false
    | x :: xs, y :: ys =>
      if x = y then go xs ys else decide (x < y)

/-- Stable insertion of `x` into a sorted list: `x` goes before the first
element it compares `le` to, hence after earlier-inserted equal elements. -/
def insertLe (le : α → α → Bool) (x : α) : List α → List α
  | [] => [x]
  | y :: ys => if le x y then x :: y :: ys else y :: insertLe le x ys

/-- Stable sort by the boolean relation `le`; models the (stable) JS
`Array.prototype.sort` for a total preorder comparator. -/
def sortLe (le : α → α → Bool) : List α → List α
  | [] => []
  | x :: xs => insertLe le x (sortLe le xs)

/-- Fuel-driven worker for `natDigits` (the fuel bounds the digit count, so
the definition is structural and evaluates by kernel reduction). -/
def natDigitsAux : Nat → Nat → List Char
  | 0, _ => []
  | fuel + 1, n =>
    if n < 10 then [Char.ofNat (48 + n)]
    else natDigitsAux fuel (n / 10) ++ [Char.ofNat (48 + n % 10)]

/-- Decimal digits of a natural number. -/
def natDigits (n : Nat) : List Char :=
  natDigitsAux (n + 1) n

/-- JS `String(n)` for a non-negative integer. -/
def natToStr (n : Nat) : String := String.mk (natDigits n)

/-- JS `String(n)` for an integer. -/
def intToStr (n : Int) : String :=
  if n < 0 then "-" ++ natToStr n.natAbs else natToStr n.natAbs

/-- Upper-case hexadecimal digit. -/
def hexDigitUpper (n : Nat) : Char :=
  if n < 10 then Char.ofNat (48 + n) else Char.ofNat (55 + n)

/-- Lower-case hexadecimal digit. -/
def hexDigitLower (n : Nat) : Char :=
  if n < 10 then Char.ofNat (48 + n) else Char.ofNat (87 + n)

/-- Two upper-case hex digits of a byte, as used by percent-encoding. -/
def byteHexUpper (b : Nat) : List Char :=
  [hexDigitUpper (b / 16 % 16), hexDigitUpper (b % 16)]

/-- Two lower-case hex digits of a byte: the source's
`("00" + x.toString(16)).slice(-2)` for a byte value. -/
def byteHexLower (b : Nat) : List Char :=
  [hexDigitLower (b / 16 % 16), hexDigitLower (b % 16)]

/-- Lower-case hex string of a byte sequence (the source's `toHex`). -/
def toHex (bytes : List Nat) : String :=
  String.mk (bytes.flatMap byteHexLower)

/-- UTF-8 bytes of one character (the `TextEncoder` model). -/
def utf8Char (c : Char) : List Nat :=
  let n := c.toNat
  if n < 0x80 then [n]
  else if n < 0x800 then [0xC0 + n / 64, 0x80 + n % 64]
  else if n < 0x10000 then [0xE0 + n / 4096, 0x80 + n / 64 % 64, 0x80 + n % 64]
  else [0xF0 + n / 262144, 0x80 + n / 4096 % 64, 0x80 + n / 64 % 64, 0x80 + n % 64]

/-- UTF-8 bytes of a string (`TextEncoder.encode`). -/
def utf8 (s : String) : List Nat :=
  s.data.flatMap utf8Char

/-! ## Minimal XML tag extraction (src/client.ts internals) -/

/-- Decode the five XML entities the source's `decodeXml` replaces, in the
same sequential order (`&amp;`, `&lt;`, `&gt;`, `&quot;`, `&#39;`). -/
def decodeXml (value : String) : String :=
  value
  |> replaceAllStr "&amp;" "&"
  |> replaceAllStr "&lt;" "<"
  |> replaceAllStr "&gt;" ">"
  |> replaceAllStr "&quot;" "\""
  |> replaceAllStr "&#39;" "\x27"

/-- The source's `extractTag(section, tag)`: first case-insensitive
`<tag>...</tag>` occurrence with the lazily-shortest content, decoded via
`decodeXml`; `none` when the pattern does not match. -/
def extractTag (sec tag : String) : Option String :=
  let hay := sec.data.map lowerChar
  let lt := tag.data.map lowerChar
  let openTag := '<' :: lt ++ ['>']
  let closeTag := '<' :: '/' :: lt ++ ['>']
  match findSub openTag hay with
  | none => none
  | some i =>
    let start := i + openTag.length
    match findSub closeTag (hay.drop start) with
    | none => none
    | some j => some (decodeXml (String.mk ((sec.data.drop start).take j)))

/-- Fuel-driven worker for `splitSections`. -/
def splitSectionsAux (openTag closeTag : List Char) : Nat → List Char → List (List Char)
  | 0, _ => []
  | fuel + 1, l =>
    match findSub openTag l with
    | none => []
    | some i =>
      let after := l.drop (i + openTag.length)
      match findSub closeTag after with
      | none => []
      | some j =>
        after.take j :: splitSectionsAux openTag closeTag fuel (after.drop (j + closeTag.length))

/-- The source's `xml.matchAll(/<Tag>([\s\S]*?)<\/Tag>/g)`: the list of the
(lazily-shortest) section bodies between consecutive literal open/close tags. -/
def splitSections (tag : String) (xml : String) : List String :=
  (splitSectionsAux ('<' :: tag.data ++ ['>']) ('<' :: '/' :: tag.data ++ ['>'])
      xml.data.length xml.data).map String.mk

/-- The source's `escapeXml`: sequentially escape `&`, `<`, `>` and the
apostrophe (the double quote is left as-is). -/
def escapeXml (value : String) : String :=
  value
  |> replaceAllStr "&" "&amp;"
  |> replaceAllStr "<" "&lt;"
  |> replaceAllStr ">" "&gt;"
  |> replaceAllStr "\x27" "&#39;"

/-- The source's `stripQuotes`: remove one pair of surrounding double quotes
when both are present. -/
def stripQuotes (value : String) : String :=
  if startsWithChar '"' value ∧ endsWithChar '"' value then
    String.mk (value.data.drop 1).dropLast
  else value

/-- Digit-prefix worker for `parseInt10`. -/
def takeDigits : List Char → List Char
  | [] => []
  | c :: rest => if '0' ≤ c ∧ c ≤ '9' then c :: takeDigits rest else []

/-- Value of a list of decimal digit characters. -/
def digitsToNat (l : List Char) : Nat :=
  l.foldl (fun acc c => acc * 10 + (c.toNat - 48)) 0

/-- JS `Number.parseInt(s, 10)`: optional sign then a maximal digit prefix,
`none` for the `NaN` result. -/
def parseInt10 (s : String) : Option Int :=
  let t := trimChars s.data
  match t with
  | '-' :: rest =>
    match takeDigits rest with
    | [] => none
    | ds => some (-(digitsToNat ds : Int))
  | '+' :: rest =>
    match takeDigits rest with
    | [] => none
    | ds => some (digitsToNat ds : Int)
  | _ =>
    match takeDigits t with
    | [] => none
    | ds => some (digitsToNat ds : Int)

/-! ## The Fetch `Headers` container

The client manipulates headers exclusively through the WHATWG Fetch `Headers`
object.  Its observable behaviour (per the Fetch specification): header names
compare case-insensitively, `set`/`append` normalize the value by trimming
surrounding whitespace, `get` joins the values of a name with ", ", and
iteration visits each distinct (lower-cased) name in sorted order with the
joined value.  We store entries with lower-cased names in insertion order. -/

structure HeadersM where
  entries : List (String × String)
deriving DecidableEq, Repr

/-- The empty `Headers` object. -/
def emptyHeaders : HeadersM := ⟨[]⟩

/-- `Headers.prototype.append`. -/
def headerAppend (h : HeadersM) (name value : String) : HeadersM :=
  ⟨h.entries ++ [(lowerStr name, trimWs value)]⟩

/-- `Headers.prototype.set` (replaces every value held for the name). -/
def headerSet (h : HeadersM) (name value : String) : HeadersM :=
  ⟨h.entries.filter (fun e => e.1 ≠ lowerStr name) ++ [(lowerStr name, trimWs value)]⟩

/-- The raw values stored for a name, in insertion order. -/
def headerValues (h : HeadersM) (name : String) : List String :=
  (h.entries.filter (fun e => e.1 = lowerStr name)).map (fun e => e.2)

/-- `Headers.prototype.get`: the ", "-join of the values, `none` if absent. -/
def headerGet (h : HeadersM) (name : String) : Option String :=
  match headerValues h name with
  | [] => none
  | vs => some (joinStr ", " vs)

/-- `Headers.prototype.has`. -/
def headerHas (h : HeadersM) (name : String) : Bool :=
  headerGet h name |>.isSome

/-- The distinct names of `h`, sorted (the Fetch iteration order). -/
def headerNames (h : HeadersM) : List String :=
  sortLe strLe ((h.entries.map (fun e => e.1)).dedup)

/-- The Fetch iteration ("sort and combine") view: distinct sorted names,
each paired with the ", "-joined value — what `Headers.prototype.forEach`
visits. -/
def headersForEach (h : HeadersM) : List (String × String) :=
  (headerNames h).map (fun n => (n, joinStr ", " (headerValues h n)))

/-- The source's `cloneHeaders`: a fresh `Headers` populated by appending
every entry the iteration view yields. -/
def cloneHeaders (h : HeadersM) : HeadersM :=
  (headersForEach h).foldl (fun acc e => headerAppend acc e.1 e.2) emptyHeaders

/-- Build a `Headers` from a list of raw (name, value) pairs by successive
`append` calls (the `new Headers(init)` construction). -/
def headersOf (l : List (String × String)) : HeadersM :=
  l.foldl (fun acc e => headerAppend acc e.1 e.2) emptyHeaders

/-! ## Percent-encoding (src/internal/utils/encode.ts) -/

/-- Characters `encodeURIComponent` leaves literal (ECMA-262 unreserved set:
alphanumerics and `- _ . ! ~ * ' ( )`). -/
def isUriUnreserved (c : Char) : Bool :=
  ('A' ≤ c ∧ c ≤ 'Z') || ('a' ≤ c ∧ c ≤ 'z') || ('0' ≤ c ∧ c ≤ '9') ||
    c = '-' || c = '_' || c = '.' || c = '!' || c = '~' || c = '*' ||
    c = '\x27' || c = '(' || c = ')'

/-- ECMA-262 `encodeURIComponent`: UTF-8 percent-encoding with the unreserved
set above, upper-case hex. -/
def encodeURIComponentJs (s : String) : String :=
  String.mk (s.data.flatMap fun c =>
    if isUriUnreserved c then [c]
    else (utf8Char c).flatMap fun b => '%' :: byteHexUpper b)

/-- The source's post-pass `replace(/[!'()*]/g, ...)`: force the five
characters `encodeURIComponent` leaves literal into upper-case percent
form. -/
def encodeStrictChars (s : String) : String :=
  String.mk (s.data.flatMap fun c =>
    if c = '!' || c = '\x27' || c = '(' || c = ')' || c = '*' then
      '%' :: byteHexUpper c.toNat
    else [c])

/-- The source's `uriEncode(input, encodeSlash)`: `encodeURIComponent`, then
force-encode `! ' ( ) *`, keep `~` literal, and optionally restore `/`. -/
def uriEncode (input : String) (encodeSlash : Bool) : String :=
  let encoded := encodeStrictChars (encodeURIComponentJs input)
  let encoded := replaceAllStr "%7E" "~" encoded
  if !encodeSlash then replaceAllStr "%2F" "/" encoded else encoded

/-! ## SigV4 signer (src/core/signer.ts) -/

structure CredentialsM where
  accessKeyId : String
  secretAccessKey : String
  sessionToken : Option String
deriving DecidableEq, Repr

/-- The request body, by the shape the source discriminates on. -/
inductive BodyM where
  | null
  | str (s : String)
  | buffer (bytes : List Nat)
  | view (bytes : List Nat)
  | blob (bytes : List Nat)
  | stream
  | other
deriving DecidableEq, Repr

/-- The WebCrypto digest primitives the signer calls
(`crypto.subtle.digest("SHA-256", ...)` and `crypto.subtle.sign("HMAC", ...)`),
as raw byte functions; they are platform collaborators, so the development is
parameterized over them. -/
structure CryptoM where
  sha256 : List Nat → List Nat
  hmac : List Nat → List Nat → List Nat

/-- The source's `sha256Hex`. -/
def sha256Hex (cp : CryptoM) (data : List Nat) : String :=
  toHex (cp.sha256 data)

/-- The source's `hmac(key, data)` (the data is UTF-8 encoded). -/
def hmacBytes (cp : CryptoM) (key : List Nat) (data : String) : List Nat :=
  cp.hmac key (utf8 data)

/-- The source's normalization of one canonical header value:
`value.trim().replace(/\s+/g, " ")`. -/
def normalizeHeaderValue (v : String) : String :=
  String.mk (collapseWs (trimWs v).data)

/-- The loop body of the source's `canonicalizeHeaders` `forEach`: lower-case
and trim the name, skip it when empty, trim and whitespace-collapse the
value, and push it into the grouping map. -/
def canonicalizeStep (m : List (String × List String)) (kv : String × String) :
    List (String × List String) :=
  let lower := lowerStr (trimWs kv.1)
  if lower = "" then m
  else
    let normalized := normalizeHeaderValue kv.2
    if m.any (fun e => e.1 = lower) then
      m.map (fun e => if e.1 = lower then (e.1, e.2 ++ [normalized]) else e)
    else m ++ [(lower, [normalized])]

/-- The source's `canonicalizeHeaders`: iterate the Fetch view of the header
set, lower-case and trim each name, trim and whitespace-collapse each value,
group values by name, then emit the sorted `name:value` block and the
`;`-joined signed-header list. -/
def canonicalizeHeaders (headers : HeadersM) : String × String :=
  let hm : List (String × List String) :=
    (headersForEach headers).foldl canonicalizeStep []
  let sortedKeys := sortLe strLe (hm.map (fun e => e.1))
  let canonical :=
    joinStr "\n" (sortedKeys.map fun k =>
      k ++ ":" ++ joinStr "," (((hm.find? (fun e => e.1 = k)).map (fun e => e.2)).getD []))
  let signedHeaders := joinStr ";" sortedKeys
  (canonical ++ "\n", signedHeaders)

/-- The source's `getCanonicalUri`: percent-encode every `/`-separated path
segment independently. -/
def getCanonicalUri (pathname : String) : String :=
  if pathname = "" then "/"
  else
    let encodedPath :=
      joinStr "/" ((splitOnChar '/' pathname.data).map fun seg => uriEncode (String.mk seg) false)
    if startsWithChar '/' encodedPath then encodedPath else "/" ++ encodedPath

/-- Strict lexicographic character-code comparison (JS `<` on strings). -/
def strLt (a b : String) : Bool :=
  go a.data b.data
where
  go : List Char → List Char → Bool
    | [], [] => false
    | [], _ :: _ => true
    | _ :: _, [] => false
    | x :: xs, y :: ys => if x = y then go xs ys else decide (x < y)

/-- The comparator of `getCanonicalQuery` (`-1/0/1` by key then value),
rendered as its non-strict ordering. -/
def queryEntryLe (a b : String × String) : Bool :=
  if a.1 = b.1 then strLe a.2 b.2 else strLt a.1 b.1

/-- The source's `getCanonicalQuery`: sort entries by key then value and
percent-encode both with the strict ruleset (slashes encoded). -/
def getCanonicalQuery (params : List (String × String)) : String :=
  let entries := sortLe queryEntryLe params
  joinStr "&" (entries.map fun e => uriEncode e.1 true ++ "=" ++ uriEncode e.2 true)

/-- The source's `buildCanonicalRequest`. -/
def buildCanonicalRequest (method : String) (pathname : String)
    (query : List (String × String)) (canonicalHeaders signedHeaders payloadHash : String) :
    String :=
  joinStr "\n"
    [upperStr method, getCanonicalUri pathname, getCanonicalQuery query,
      canonicalHeaders, signedHeaders, payloadHash]

/-- Proleptic Gregorian date of a day count since 1970-01-01 (the standard
era-based civil-from-days conversion `Date.prototype.toISOString` realizes).
Returns `(year, month, day)`. -/
def civilFromDays (z0 : Int) : Int × Nat × Nat :=
  let z := z0 + 719468
  let era := Int.fdiv z 146097
  let doe := (z - era * 146097).toNat
  let yoe := (doe - doe / 1460 + doe / 36524 - doe / 146096) / 365
  let y := (yoe : Int) + era * 400
  let doy := doe - (365 * yoe + yoe / 4 - yoe / 100)
  let mp := (5 * doy + 2) / 153
  let d := doy - (153 * mp + 2) / 5 + 1
  let m := if mp < 10 then mp + 3 else mp - 9
  (if m ≤ 2 then y + 1 else y, m, d)

/-- Left-pad a number to two digits. -/
def pad2 (n : Nat) : String :=
  if n < 10 then "0" ++ natToStr n else natToStr n

/-- Left-pad a number to four digits (ISO year field, years 0 - 9999). -/
def pad4 (n : Nat) : String :=
  String.mk (List.replicate (4 - (natDigits n).length) '0') ++ natToStr n

/-- The source's `formatAmzDate`: drop the milliseconds, take the UTC ISO
representation, and produce `(amzDate, shortDate)` =
(`YYYYMMDDTHHMMSSZ`, `YYYYMMDD`).  The timestamp is the JS epoch-millisecond
value; years are modelled in the ISO range 0 - 9999. -/
def formatAmzDate (t : Int) : String × String :=
  let tsec := t - t.emod 1000
  let days := Int.fdiv tsec 86400000
  let msOfDay := (tsec.emod 86400000).toNat
  let ymd := civilFromDays days
  let secOfDay := msOfDay / 1000
  let shortDate := pad4 ymd.1.toNat ++ pad2 ymd.2.1 ++ pad2 ymd.2.2
  let time := pad2 (secOfDay / 3600) ++ pad2 (secOfDay % 3600 / 60) ++ pad2 (secOfDay % 60)
  (shortDate ++ "T" ++ time ++ "Z", shortDate)

/-- The source's `ensureHost`. -/
def ensureHost (headers : HeadersM) (urlHost : String) : HeadersM :=
  if !headerHas headers "host" then headerSet headers "host" urlHost else headers

/-- The source's `calculateSignature`: the four-step HMAC key derivation
chain followed by the HMAC of the string-to-sign, hex encoded. -/
def calculateSignature (cp : CryptoM) (secretAccessKey shortDate region stringToSign : String) :
    String :=
  let kDate := hmacBytes cp (utf8 ("AWS4" ++ secretAccessKey)) shortDate
  let kRegion := hmacBytes cp kDate region
  let kService := hmacBytes cp kRegion "s3"
  let kSigning := hmacBytes cp kService "aws4_request"
  toHex (cp.hmac kSigning (utf8 stringToSign))

/-- The source's `buildStringToSign`. -/
def buildStringToSign (amzDate credentialScope canonicalRequestHash : String) : String :=
  "AWS4-HMAC-SHA256\n" ++ amzDate ++ "\n" ++ credentialScope ++ "\n" ++ canonicalRequestHash

/-- The source's `buildAuthorizationHeader`. -/
def buildAuthorizationHeader (accessKeyId credentialScope signedHeaders signature : String) :
    String :=
  "AWS4-HMAC-SHA256 Credential=" ++ accessKeyId ++ "/" ++ credentialScope ++
    ", SignedHeaders=" ++ signedHeaders ++ ", Signature=" ++ signature

structure SignRequestInput where
  method : String
  urlHost : String
  urlPathname : String
  urlQuery : List (String × String)
  region : String
  credentials : CredentialsM
  headers : HeadersM
  body : BodyM
  datetime : Int
  unsignedPayload : Bool
deriving DecidableEq, Repr

structure SignRequestResult where
  headers : HeadersM
  payloadHash : String
  amzDate : String
  signedHeaders : String
deriving DecidableEq, Repr

/-- The source's `resolvePayloadHash`, evaluated against the header set after
the date/token headers were installed. -/
def resolvePayloadHash (cp : CryptoM) (input : SignRequestInput) (headers : HeadersM) : String :=
  if input.unsignedPayload then "UNSIGNED-PAYLOAD"
  else
    let fromBody :=
      match input.body with
      | BodyM.null => sha256Hex cp (utf8 "")
      | BodyM.str s => if s = "" then sha256Hex cp (utf8 "") else sha256Hex cp (utf8 s)
      | BodyM.buffer bytes => sha256Hex cp bytes
      | BodyM.view bytes => sha256Hex cp bytes
      | BodyM.blob bytes => sha256Hex cp bytes
      | BodyM.stream => "UNSIGNED-PAYLOAD"
      | BodyM.other => "UNSIGNED-PAYLOAD"
    match headerGet headers "x-amz-content-sha256" with
    | some existing => if existing = "" then fromBody else existing
    | none => fromBody

/-- The source's `signRequest` (src/core/signer.ts lines 55 - 112), with the
caller-fixed signing datetime and the WebCrypto primitives explicit. -/
def signRequest (cp : CryptoM) (input : SignRequestInput) : SignRequestResult :=
  let fmt := formatAmzDate input.datetime
  let amzDate := fmt.1
  let shortDate := fmt.2
  let headers := cloneHeaders input.headers
  let headers := ensureHost headers input.urlHost
  let headers := headerSet headers "x-amz-date" amzDate
  let headers :=
    match input.credentials.sessionToken with
    | some token => if token ≠ "" then headerSet headers "x-amz-security-token" token else headers
    | none => headers
  let payloadHash := resolvePayloadHash cp input headers
  let headers := headerSet headers "x-amz-content-sha256" payloadHash
  let ch := canonicalizeHeaders headers
  let canonicalRequest :=
    buildCanonicalRequest input.method input.urlPathname input.urlQuery ch.1 ch.2 payloadHash
  let canonicalRequestHash := sha256Hex cp (utf8 canonicalRequest)
  let credentialScope := shortDate ++ "/" ++ input.region ++ "/s3/aws4_request"
  let stringToSign := buildStringToSign amzDate credentialScope canonicalRequestHash
  let signature :=
    calculateSignature cp input.credentials.secretAccessKey shortDate input.region stringToSign
  let authorization :=
    buildAuthorizationHeader input.credentials.accessKeyId credentialScope ch.2 signature
  let headers := headerSet headers "authorization" authorization
  { headers := headers, payloadHash := payloadHash, amzDate := amzDate,
    signedHeaders := ch.2 }

/-! ## Status classification and expected-status sets (src/client.ts) -/

/-- The `expectedStatus` shape of a request: one status or a list. -/
inductive ExpectedStatus where
  | single (n : Nat)
  | list (l : List Nat)
deriving DecidableEq, Repr

/-- The source's `matchesExpected`. -/
def matchesExpected (status : Nat) (expected : ExpectedStatus) : Bool :=
  match expected with
  | .single n => status = n
  | .list l => l.contains status

/-- `expectedStatus` of `S3Client.get` (line 121). -/
def expectedStatusGet : ExpectedStatus := .list [200, 304]

/-- `expectedStatus` of `S3Client.head` (line 134). -/
def expectedStatusHead : ExpectedStatus := .list [200, 304]

/-- `expectedStatus` of `S3Client.put` (line 172). -/
def expectedStatusPut : ExpectedStatus := .list [200, 412]

/-- `expectedStatus` of `S3Client.del` (line 182). -/
def expectedStatusDel : ExpectedStatus := .list [200, 204]

/-- `expectedStatus` of `S3Client.list` (line 221). -/
def expectedStatusList : ExpectedStatus := .single 200

/-- `expectedStatus` of `S3Client.initiateMultipart` (line 300). -/
def expectedStatusInitiateMultipart : ExpectedStatus := .single 200

/-- `expectedStatus` of `S3Client.uploadPart` (line 344). -/
def expectedStatusUploadPart : ExpectedStatus := .single 200

/-- `expectedStatus` of `S3Client.completeMultipart` (line 403). -/
def expectedStatusCompleteMultipart : ExpectedStatus := .list [200, 412]

/-- `expectedStatus` of `S3Client.abortMultipart` (line 431). -/
def expectedStatusAbortMultipart : ExpectedStatus := .list [200, 202, 204]

/-! ## Structured error decoding and retriability (src/client.ts) -/

/-- The source's `RETRIABLE_ERROR_CODES` set (lines 779 - 791). -/
def RETRIABLE_ERROR_CODES : List String :=
  ["SLOWDOWN", "THROTTLING", "THROTTLINGEXCEPTION", "REQUESTTIMEOUT",
    "REQUESTTIMEOUTEXCEPTION", "REQUESTTIMETOOSKEWED", "INTERNALERROR",
    "SERVICEUNAVAILABLE", "SERVICEUNAVAILABLEEXCEPTION", "HTTP503",
    "GATEWAYTIMEOUT"]

/-- The source's `determineErrorRetriable(status, code)` (lines 945 - 957);
`code = some ""` models a decoded-but-empty code, which the JS `!code` test
treats like an absent one. -/
def determineErrorRetriable (status : Nat) (code : Option String) : Bool :=
  if status = 429 then true
  else if 500 ≤ status ∧ status ≠ 501 ∧ status ≠ 505 then true
  else
    match code with
    | none => false
    | some c =>
      if c = "" then false
      else RETRIABLE_ERROR_CODES.contains (upperStr (trimWs c))

/-- An HTTP response as the retry/decoding layer observes it: status line,
headers, and the error-body text the `readErrorBody` collaborator yields
(`none` when the response has no body). -/
structure ResponseM where
  url : String
  status : Nat
  statusText : String
  headers : HeadersM
  bodyText : Option String
deriving DecidableEq, Repr

/-- The ECMAScript runtime primitives the error decoder consults:
`Number(...)` (finite results only), `Date.parse`, and `Date.now()`. -/
structure EnvPrimsM where
  jsNumber : String → Option ℚ
  dateParse : String → Option Int
  nowMs : Int

/-- The source's `parseRetryAfterHeader` (lines 959 - 977): a non-negative
finite number of seconds, or an HTTP date converted to a positive relative
second count. -/
def parseRetryAfterHeader (env : EnvPrimsM) (value : Option String) : Option ℚ :=
  match value with
  | none => none
  | some v =>
    let trimmed := trimWs v
    if trimmed = "" then none
    else
      match env.jsNumber trimmed with
      | some numeric => if 0 ≤ numeric then some numeric else none
      | none =>
        match env.dateParse trimmed with
        | none => none
        | some parsed =>
          let deltaSeconds := Int.ceil (((parsed - env.nowMs : Int) : ℚ) / 1000)
          if 0 < deltaSeconds then some (deltaSeconds : ℚ) else none

/-- The diagnostic cause bundle captured by `createError`. -/
structure S3CauseM where
  url : String
  status : Nat
  statusText : String
  headers : List (String × String)
  body : Option String
deriving DecidableEq, Repr

/-- The `S3Error` value (src/error.ts). -/
structure S3ErrorM where
  message : String
  status : Nat
  code : Option String
  requestId : Option String
  extendedRequestId : Option String
  retriable : Bool
  retryAfter : Option ℚ
  resource : Option String
  region : Option String
  bucketRegion : Option String
  cause : S3CauseM
deriving DecidableEq

/-- The source's `parseErrorXml` result. -/
structure ParsedErrorXml where
  code : Option String
  message : Option String
  resource : Option String
  region : Option String
deriving DecidableEq, Repr

/-- The source's `parseErrorXml` (lines 1155 - 1167). -/
def parseErrorXml (xml : String) : ParsedErrorXml :=
  { code := extractTag xml "Code", message := extractTag xml "Message",
    resource := extractTag xml "Resource", region := extractTag xml "Region" }

/-- The source's `createError(response)` (lines 1050 - 1103).  The body text
is the (already length-capped) string `readErrorBody` produced. -/
def createError (env : EnvPrimsM) (response : ResponseM) : S3ErrorM :=
  let requestId := headerGet response.headers "x-amz-request-id"
  let extendedRequestId := headerGet response.headers "x-amz-id-2"
  let base :=
    if response.statusText ≠ "" then response.statusText
    else "HTTP " ++ natToStr response.status
  let parsedData :
      String × Option String × Option String × Option String × Option String :=
    match response.bodyText with
    | some text =>
      if text = "" then (base, none, none, none, none)
      else
        let parsed := parseErrorXml text
        let message :=
          match parsed.message with
          | some m => if m = "" then base else m
          | none => base
        let code :=
          match parsed.code with
          | some c => if c = "" then none else some c
          | none => none
        (message, code, parsed.resource, parsed.region, some text)
    | none => (base, none, none, none, none)
  let message := parsedData.1
  let code := parsedData.2.1
  let resource := parsedData.2.2.1
  let region := parsedData.2.2.2.1
  let bodyText := parsedData.2.2.2.2
  let bucketRegion := headerGet response.headers "x-amz-bucket-region"
  let retryAfter := parseRetryAfterHeader env (headerGet response.headers "retry-after")
  let retriable := determineErrorRetriable response.status code
  { message := message, status := response.status, code := code,
    requestId := requestId, extendedRequestId := extendedRequestId,
    retriable := retriable, retryAfter := retryAfter, resource := resource,
    region := (match region with | some r => some r | none => bucketRegion),
    bucketRegion := bucketRegion,
    cause := { url := response.url, status := response.status,
               statusText := response.statusText,
               headers := headersForEach response.headers,
               body := bodyText } }

/-- A thrown JS value: an `S3Error`, another `Error` (name and message), or a
non-`Error` throwable (its string form). -/
inductive ErrorV where
  | s3 (e : S3ErrorM)
  | err (name : String) (msg : String)
  | nonError (str : String)
deriving DecidableEq

/-- The source's `ensureError` (lines 998 - 1006): `Error` values pass
through, anything else is wrapped into a fresh `Error`. -/
def ensureError : ErrorV → ErrorV
  | ErrorV.s3 e => ErrorV.s3 e
  | ErrorV.err n m => ErrorV.err n m
  | ErrorV.nonError s => ErrorV.err "Error" s

/-- The source's `isAbortError` (lines 1008 - 1019): an `Error` (or
`DOMException`) named `AbortError`; an `S3Error` is named `S3Error`. -/
def isAbortError : ErrorV → Bool
  | ErrorV.s3 _ => false
  | ErrorV.err n _ => n = "AbortError"
  | ErrorV.nonError _ => false

/-! ## Retry controller and backoff (src/client.ts) -/

/-- The source's `isRetryEligibleMethod` (lines 986 - 989). -/
def isRetryEligibleMethod (method : String) : Bool :=
  upperStr method = "GET" || upperStr method = "HEAD"

/-- The source's `isRetriableStatus` (lines 991 - 996). -/
def isRetriableStatus (status : Nat) : Bool :=
  if status = 429 then true
  else decide (500 ≤ status) && decide (status ≠ 501) && decide (status ≠ 505)

/-- The retry configuration after the constructor's normalization
(`maxAttempts`, `baseDelayMs` non-negative integers, `jitter` an optional
flag, `retriable` an optional caller predicate).  A predicate invocation that
throws is an `Except.error`. -/
structure RetryCfgM where
  maxAttempts : Nat
  baseDelayMs : Nat
  jitter : Option Bool
  retriable : Option (Option ResponseM → ErrorV → Except String Bool)

/-- The source's `S3Client.shouldRetry` (lines 673 - 709). -/
def shouldRetry (cfg : RetryCfgM) (method : String) (response : Option ResponseM)
    (error : ErrorV) (attempt maxAttempts : Nat) : Bool :=
  if maxAttempts ≤ attempt then false
  else
    match cfg.retriable with
    | some custom =>
      match custom response error with
      | Except.ok b => b
      | Except.error _ => false
    | none =>
      if !isRetryEligibleMethod method then false
      else
        match response with
        | some r =>
          (match error with
           | ErrorV.s3 e => if e.retriable then true else isRetriableStatus r.status
           | _ => isRetriableStatus r.status)
        | none =>
          match error with
          | ErrorV.s3 e => e.retriable
          | _ => true

/-- The source's `S3Client.computeBackoffDelay` (lines 711 - 724); `r` is the
`Math.random()` draw of this invocation, `0 <= r < 1`.  Delays are integral
milliseconds, so `Math.floor(raw / 2)` is `Nat` division. -/
def computeBackoffDelay (baseDelayMs : Nat) (jitter : Option Bool) (attempt : Nat) (r : ℚ) :
    Nat :=
  if baseDelayMs = 0 then 0
  else
    let raw := baseDelayMs * 2 ^ (attempt - 1)
    if jitter = some false then raw
    else
      let mn := raw / 2
      let range := raw - mn
      mn + (Int.toNat ⌊r * ((range : ℚ) + 1)⌋)

/-- The retry-after override of `S3Client.perform` (lines 571 - 580): when
the last error carries a numeric `retryAfter` (seconds), its millisecond
ceiling replaces the computed delay if strictly larger. -/
def selectDelay (computedDelayMs : Nat) (retryAfter : Option ℚ) : Nat :=
  match retryAfter with
  | none => computedDelayMs
  | some q =>
    let retryDelay := Int.toNat ⌈q * 1000⌉
    if computedDelayMs < retryDelay then retryDelay else computedDelayMs

/-- What the transport collaborator produces for one attempt. -/
inductive TransportOutcome where
  | response (r : ResponseM)
  | exception (e : ErrorV)

/-- Outcome of `S3Client.perform`: the returned response or the thrown error,
together with the number of attempts dispatched. -/
inductive PerformResult where
  | succeeded (r : ResponseM) (attemptsUsed : Nat)
  | thrown (e : ErrorV) (attemptsUsed : Nat)
deriving DecidableEq

/-- The attempt loop of `S3Client.perform` (lines 485 - 589).  The transport
is a function of the attempt index (dispatching a freshly signed request and
yielding a response or a thrown value); the backoff waits between attempts
(whose durations `computeBackoffDelay`/`selectDelay` model) do not affect the
result value and are not tracked here.  `remaining` counts the loop
iterations still allowed, starting at `maxAttempts`. -/
def performAux (env : EnvPrimsM) (cfg : RetryCfgM) (method : String)
    (expected : ExpectedStatus) (transport : Nat → TransportOutcome)
    (maxAttempts : Nat) : Nat → Nat → Option ErrorV → PerformResult
  | attempt, 0, lastError =>
    PerformResult.thrown
      (ensureError (lastError.getD
        (ErrorV.err "Error" "Request failed after exhausting retry attempts.")))
      attempt
  | attempt, remaining + 1, _lastError =>
    let att := attempt + 1
    match transport att with
    | TransportOutcome.response r =>
      if matchesExpected r.status expected then PerformResult.succeeded r att
      else
        let error := ErrorV.s3 (createError env r)
        if shouldRetry cfg method (some r) error att maxAttempts then
          performAux env cfg method expected transport maxAttempts att remaining (some error)
        else PerformResult.thrown error att
    | TransportOutcome.exception e =>
      if isAbortError e then PerformResult.thrown e att
      else if shouldRetry cfg method none e att maxAttempts then
        performAux env cfg method expected transport maxAttempts att remaining (some e)
      else PerformResult.thrown (ensureError e) att

/-- `S3Client.perform`: run the loop from attempt 0 with the normalized
`Math.max(1, maxAttempts)` bound. -/
def performModel (env : EnvPrimsM) (cfg : RetryCfgM) (method : String)
    (expected : ExpectedStatus) (transport : Nat → TransportOutcome) : PerformResult :=
  performAux env cfg method expected transport (max 1 cfg.maxAttempts) 0
    (max 1 cfg.maxAttempts) none

/-! ## Checksum engine (src/client.ts lines 623 - 943) -/

/-- The checksum algorithm of `ChecksumConfig`. -/
inductive ChecksumAlg where
  | cnone
  | sha256
  | crc32c
deriving DecidableEq, Repr

/-- The string value of the algorithm (the TS union member used in the
failure message template). -/
def algName : ChecksumAlg → String
  | ChecksumAlg.cnone => "none"
  | ChecksumAlg.sha256 => "sha256"
  | ChecksumAlg.crc32c => "crc32c"

/-- `ChecksumConfig` after the constructor's defaulting. -/
structure ChecksumCfgM where
  algorithm : ChecksumAlg
  requireOnPut : Bool
deriving DecidableEq, Repr

/-- The source's `MAX_INLINE_CHECKSUM_BYTES` (16 MiB). -/
def MAX_INLINE_CHECKSUM_BYTES : Nat := 16 * 1024 * 1024

/-- The source's `ChecksumFailureReason`. -/
inductive ChecksumFailReason where
  | stream
  | tooLarge
  | unsupported
deriving DecidableEq, Repr

/-- The source's `ChecksumNormalizationResult`. -/
inductive ChecksumNorm where
  | bytes (l : List Nat)
  | failed (r : ChecksumFailReason)
deriving DecidableEq, Repr

/-- The source's `normalizeBodyForChecksum` (lines 793 - 841): materialize a
string / byte-buffer / view / blob body into bytes capped at `maxBytes`;
streams and unknown shapes are refused with their reason. -/
def normalizeBodyForChecksum (body : BodyM) (maxBytes : Nat) : ChecksumNorm :=
  match body with
  | BodyM.null => ChecksumNorm.bytes []
  | BodyM.str s =>
    let bytes := utf8 s
    if maxBytes < bytes.length then ChecksumNorm.failed ChecksumFailReason.tooLarge
    else ChecksumNorm.bytes bytes
  | BodyM.buffer b =>
    if maxBytes < b.length then ChecksumNorm.failed ChecksumFailReason.tooLarge
    else ChecksumNorm.bytes b
  | BodyM.view b =>
    if maxBytes < b.length then ChecksumNorm.failed ChecksumFailReason.tooLarge
    else ChecksumNorm.bytes b
  | BodyM.blob b =>
    if maxBytes < b.length then ChecksumNorm.failed ChecksumFailReason.tooLarge
    else ChecksumNorm.bytes b
  | BodyM.stream => ChecksumNorm.failed ChecksumFailReason.stream
  | BodyM.other => ChecksumNorm.failed ChecksumFailReason.unsupported

/-- The source's `formatChecksumFailureReason` (lines 843 - 855). -/
def formatChecksumFailureReason : ChecksumFailReason → String
  | ChecksumFailReason.stream =>
    "body is a stream and cannot be buffered without consuming it"
  | ChecksumFailReason.tooLarge =>
    "body exceeds " ++ natToStr MAX_INLINE_CHECKSUM_BYTES ++ " bytes"
  | ChecksumFailReason.unsupported =>
    "body type is not supported for checksum calculation"

/-- One bit-step of the CRC-32C table generation (`crc >>> 1`, conditionally
xored with the reflected polynomial `0x82F63B78`). -/
def crc32cRound (crc : Nat) : Nat :=
  if crc % 2 = 1 then (crc / 2) ^^^ 0x82F63B78 else crc / 2

/-- The source's `createCrc32cTable` entry for index `i` (8 bit-steps). -/
def crc32cTableEntry (i : Nat) : Nat :=
  crc32cRound (crc32cRound (crc32cRound (crc32cRound
    (crc32cRound (crc32cRound (crc32cRound (crc32cRound i)))))))

/-- The source's `CRC32C_TABLE`. -/
def CRC32C_TABLE : List Nat := (List.range 256).map crc32cTableEntry

/-- The source's `crc32c` (lines 898 - 905): reflected, table-driven, initial
and final value `0xFFFFFFFF`. -/
def crc32c (data : List Nat) : Nat :=
  (data.foldl
      (fun crc byte => (crc / 256) ^^^ CRC32C_TABLE.getD ((crc ^^^ byte) % 256) 0)
      0xFFFFFFFF) ^^^ 0xFFFFFFFF

/-- The source's `BASE64_ALPHABET`. -/
def BASE64_ALPHABET : List Char :=
  "ABCDEFGHIJKLMNOPQRSTUVWXYZabcdefghijklmnopqrstuvwxyz0123456789+/".data

/-- Character of a 6-bit value in the base64 alphabet. -/
def b64Char (n : Nat) : Char := BASE64_ALPHABET.getD n 'A'

/-- Worker for `toBase64`, consuming up to three bytes per step exactly as
the source's while loop does (missing bytes become `=` padding). -/
def toBase64Chars : List Nat → List Char
  | [] => []
  | [b1] =>
    let chunk := b1 * 65536
    [b64Char (chunk / 262144 % 64), b64Char (chunk / 4096 % 64), '=', '=']
  | [b1, b2] =>
    let chunk := b1 * 65536 + b2 * 256
    [b64Char (chunk / 262144 % 64), b64Char (chunk / 4096 % 64),
      b64Char (chunk / 64 % 64), '=']
  | b1 :: b2 :: b3 :: rest =>
    let chunk := b1 * 65536 + b2 * 256 + b3
    b64Char (chunk / 262144 % 64) :: b64Char (chunk / 4096 % 64) ::
      b64Char (chunk / 64 % 64) :: b64Char (chunk % 64) :: toBase64Chars rest

/-- The source's `toBase64` (lines 923 - 943). -/
def toBase64 (data : List Nat) : String := String.mk (toBase64Chars data)

/-- The source's `computeCrc32cBase64` (lines 888 - 896): big-endian bytes of
the checksum, base64 encoded. -/
def computeCrc32cBase64 (data : List Nat) : String :=
  let checksum := crc32c data
  toBase64 [checksum / 16777216 % 256, checksum / 65536 % 256,
    checksum / 256 % 256, checksum % 256]

/-- The source's `computeChecksumValue` (lines 857 - 868); SHA-256 goes
through the platform digest (`sha256b64` parameter), CRC-32C is computed by
the repository's own implementation.  The `cnone` case is unreachable (the
TS type excludes it and `applyChecksum` returns before reaching it). -/
def computeChecksumValue (sha256b64 : List Nat → String) (bytes : List Nat)
    (algorithm : ChecksumAlg) : String :=
  match algorithm with
  | ChecksumAlg.sha256 => sha256b64 bytes
  | ChecksumAlg.crc32c => computeCrc32cBase64 bytes
  | ChecksumAlg.cnone => ""

/-- The source's `resolveChecksumHeaderName` (lines 870 - 874). -/
def resolveChecksumHeaderName (algorithm : ChecksumAlg) : String :=
  if algorithm = ChecksumAlg.sha256 then "x-amz-checksum-sha256"
  else "x-amz-checksum-crc32c"

/-- The source's `S3Client.applyChecksum` (lines 623 - 654), as the function
from the incoming header set to either the thrown validation message or the
header set the request continues with. -/
def applyChecksum (sha256b64 : List Nat → String) (cfg : ChecksumCfgM)
    (method : String) (body : BodyM) (headers : HeadersM) : Except String HeadersM :=
  if upperStr method ≠ "PUT" then Except.ok headers
  else if cfg.algorithm = ChecksumAlg.cnone then Except.ok headers
  else
    match normalizeBodyForChecksum body MAX_INLINE_CHECKSUM_BYTES with
    | ChecksumNorm.failed reason =>
      if cfg.requireOnPut then
        Except.error ("Unable to compute " ++ algName cfg.algorithm ++
          " checksum for PUT payload: " ++ formatChecksumFailureReason reason ++ ".")
      else Except.ok headers
    | ChecksumNorm.bytes bytes =>
      Except.ok (headerSet headers (resolveChecksumHeaderName cfg.algorithm)
        (computeChecksumValue sha256b64 bytes cfg.algorithm))

/-- The ordering of `S3Client.execute` (lines 469 - 482): the checksum stage
runs first and its failure aborts the call before the dispatch stage (here an
arbitrary continuation) is ever consulted. -/
def executeWithChecksum (sha256b64 : List Nat → String) (cfg : ChecksumCfgM)
    (method : String) (body : BodyM) (headers : HeadersM)
    (dispatch : HeadersM → Except String ResponseM) : Except String ResponseM :=
  match applyChecksum sha256b64 cfg method body headers with
  | Except.error e => Except.error e
  | Except.ok h => dispatch h

/-! ## Multipart completion (src/client.ts lines 372 - 406 and 1175 - 1256) -/

/-- A `{ partNumber, etag }` record. -/
structure CompletedPart where
  partNumber : Int
  etag : String
deriving DecidableEq, Repr

/-- The source's `normalizePartNumber` (lines 1223 - 1234).  The
`Number.isFinite` / `Number.isInteger` guards are vacuous for the integer
model; the range check is verbatim. -/
def normalizePartNumber (value : Int) : Except String Int :=
  if value < 1 ∨ 10000 < value then
    Except.error "Part number must be between 1 and 10,000 inclusive."
  else Except.ok value

/-- Adjacent-duplicate scan of the sorted list (the source's for-loop over
`normalized`, lines 1214 - 1218). -/
def hasAdjacentDupPart : List CompletedPart → Bool
  | [] => false
  | [_] => false
  | a :: b :: rest =>
    a.partNumber = b.partNumber || hasAdjacentDupPart (b :: rest)

/-- The source's `normalizeCompletedParts` (lines 1198 - 1221): reject an
empty list, validate every part number, sort ascending by part number
(stable, the JS `sort` contract), and reject duplicates. -/
def normalizeCompletedParts (parts : List CompletedPart) : Except String (List CompletedPart) :=
  if parts = [] then
    Except.error "At least one part is required to complete a multipart upload."
  else do
    let normalized ← parts.mapM fun p =>
      (normalizePartNumber p.partNumber).map fun n => { partNumber := n, etag := p.etag }
    let sorted := sortLe (fun a b : CompletedPart => a.partNumber ≤ b.partNumber) normalized
    if hasAdjacentDupPart sorted then Except.error "Duplicate part numbers are not allowed."
    else Except.ok sorted

/-- The source's `ensureQuotedEtag` (lines 1247 - 1256). -/
def ensureQuotedEtag (etag : String) : Except String String :=
  let trimmed := trimWs etag
  if trimmed = "" then Except.error "ETag cannot be empty."
  else if startsWithChar '"' trimmed ∧ endsWithChar '"' trimmed then Except.ok trimmed
  else Except.ok ("\"" ++ trimmed ++ "\"")

/-- One `<Part>` block of the completion payload (the `map` body of
`buildCompleteMultipartXml`, lines 1176 - 1185). -/
def partXmlBlock (part : CompletedPart) : Except String String :=
  (ensureQuotedEtag part.etag).map fun etag =>
    joinStr "\n"
      ["  <Part>",
        "    <PartNumber>" ++ intToStr part.partNumber ++ "</PartNumber>",
        "    <ETag>" ++ escapeXml etag ++ "</ETag>",
        "  </Part>"]

/-- The source's `buildCompleteMultipartXml` (lines 1175 - 1196); the
`filter(Boolean)` drops the body line when it is empty. -/
def buildCompleteMultipartXml (parts : List CompletedPart) : Except String String := do
  let blocks ← parts.mapM partXmlBlock
  let body := joinStr "\n" blocks
  pure (joinStr "\n"
    (["<?xml version=\"1.0\" encoding=\"UTF-8\"?>",
      "<CompleteMultipartUpload>", body,
      "</CompleteMultipartUpload>"].filter (fun s => s ≠ "")))

/-- The source's `validateUploadId` (lines 1236 - 1245). -/
def validateUploadId (uploadId : String) : Except String String :=
  let trimmed := trimWs uploadId
  if trimmed = "" then Except.error "UploadId cannot be empty."
  else Except.ok trimmed

/-- The validation-then-dispatch ordering of `S3Client.completeMultipart`
(lines 372 - 406): uploadId validation, part normalization and XML
construction all run before the request (an arbitrary continuation on the
payload) is issued. -/
def completeMultipartModel (uploadId : String) (parts : List CompletedPart)
    (dispatch : String → Except String ResponseM) : Except String ResponseM := do
  let _ ← validateUploadId uploadId
  let normalized ← normalizeCompletedParts parts
  let payload ← buildCompleteMultipartXml normalized
  dispatch payload

/-! ## ListObjectsV2 parsing (src/client.ts lines 1266 - 1308) -/

/-- One entry of `ListObjectsV2Response["contents"]`.  `size` is
`Number.parseInt(size, 10)` (`none` for `NaN`). -/
structure ObjectEntryM where
  key : String
  size : Option Int
  etag : String
  lastModified : String
  storageClass : Option String
deriving DecidableEq, Repr

/-- The per-`<Contents>` body of the source's first loop: extract the five
tags and keep the entry only when `Key`, `Size`, `ETag` and `LastModified`
are all present and non-empty (the JS truthiness test `!key || ...`). -/
def parseContentEntry (sec : String) : Option ObjectEntryM :=
  match extractTag sec "Key", extractTag sec "Size", extractTag sec "ETag",
      extractTag sec "LastModified" with
  | some k, some sz, some et, some lm =>
    if k = "" ∨ sz = "" ∨ et = "" ∨ lm = "" then none
    else
      some { key := k, size := parseInt10 sz, etag := stripQuotes et,
             lastModified := lm, storageClass := extractTag sec "StorageClass" }
  | _, _, _, _ => none

/-- `ListObjectsV2Response`. -/
structure ListObjectsV2ResponseM where
  contents : List ObjectEntryM
  commonPrefixes : List String
  isTruncated : Bool
  nextContinuationToken : Option String
deriving DecidableEq, Repr

/-- The source's `parseListObjectsV2` (lines 1266 - 1308), with the two
`matchAll` loops rendered as pushing folds over the matched sections. -/
def parseListObjectsV2 (xml : String) : ListObjectsV2ResponseM :=
  let contents :=
    (splitSections "Contents" xml).foldl
      (fun acc sec =>
        match parseContentEntry sec with
        | some entry => acc ++ [entry]
        | none => acc)
      []
  let commonPrefixes :=
    (splitSections "CommonPrefixes" xml).foldl
      (fun acc sec =>
        match extractTag sec "Prefix" with
        | some p => if p = "" then acc else acc ++ [p]
        | none => acc)
      []
  { contents := contents, commonPrefixes := commonPrefixes,
    isTruncated := extractTag xml "IsTruncated" = some "true",
    nextContinuationToken := extractTag xml "NextContinuationToken" }

/-! ## Spec-side definitions

Renderings of claim statements in the claims' own words, for comparison with
the definitions above (used by the refutations and amended statements). -/

/-- A valid HTTP header name for the Fetch `Headers` container: non-empty and
free of whitespace (`Headers` rejects anything else with a `TypeError`). -/
def validHeaderName (n : String) : Prop :=
  n ≠ "" ∧ ∀ c ∈ n.data, isWsChar c = false

instance (n : String) : Decidable (validHeaderName n) := by
  unfold validHeaderName
  infer_instance

/-- Claim C5 as written: group by lower-cased name, trim and collapse the
whitespace of each value individually, sort by name, and join a name's
values with ", ". -/
def claimCanonicalHeadersBlock (l : List (String × String)) : String :=
  let names := sortLe strLe ((l.map (fun p => lowerStr p.1)).dedup)
  joinStr "\n" (names.map fun n =>
    n ++ ":" ++
      joinStr ", " ((l.filter (fun p => lowerStr p.1 = n)).map fun p =>
        normalizeHeaderValue p.2)) ++ "\n"

/-- Amended C5: the values of a name are joined with ", " first (each value
having been trimmed when it entered the header set) and the trim-and-collapse
normalization is applied to the joined value. -/
def amendedCanonicalHeadersBlock (l : List (String × String)) : String :=
  let names := sortLe strLe ((l.map (fun p => lowerStr p.1)).dedup)
  joinStr "\n" (names.map fun n =>
    n ++ ":" ++
      normalizeHeaderValue
        (joinStr ", " ((l.filter (fun p => lowerStr p.1 = n)).map fun p =>
          trimWs p.2))) ++ "\n"

/-- The signed-header list belonging to `amendedCanonicalHeadersBlock`. -/
def amendedSignedHeadersList (l : List (String × String)) : String :=
  joinStr ";" (sortLe strLe ((l.map (fun p => lowerStr p.1)).dedup))

/-- The retriable-code allow-list exactly as claim C3 enumerates it. -/
def claimRetriableCodes : List String :=
  ["SlowDown", "Throttling", "ThrottlingException", "RequestTimeout",
    "RequestTimeoutException", "RequestTimeTooSkewed", "InternalError",
    "ServiceUnavailable", "ServiceUnavailableException", "GatewayTimeout"]

/-- Claim C3's retriability predicate as written: status 429, or >= 500
excluding 501 and 505, or a case-insensitive match against
`claimRetriableCodes`. -/
def claimRetriable (status : Nat) (code : Option String) : Bool :=
  decide (status = 429) ||
    (decide (500 ≤ status) && decide (status ≠ 501) && decide (status ≠ 505)) ||
    (match code with
     | some c => claimRetriableCodes.any fun n => upperStr (trimWs c) = upperStr n
     | none => false)

/-- Amended C3 allow-list: the claim's ten names plus `HTTP503`, which the
source's `RETRIABLE_ERROR_CODES` also contains. -/
def amendedRetriableCodes : List String :=
  ["SlowDown", "Throttling", "ThrottlingException", "RequestTimeout",
    "RequestTimeoutException", "RequestTimeTooSkewed", "InternalError",
    "ServiceUnavailable", "ServiceUnavailableException", "HTTP503",
    "GatewayTimeout"]

/-! ## Helper lemmas -/

/-- A caller predicate that throws makes `shouldRetry` answer `false`. -/
theorem shouldRetry_predicate_error (cfg : RetryCfgM) (method : String)
    (response : Option ResponseM) (error : ErrorV) (attempt maxAttempts : Nat)
    (f : Option ResponseM → ErrorV → Except String Bool) (hf : cfg.retriable = some f)
    (ex : String) (herr : f response error = Except.error ex) :
    shouldRetry cfg method response error attempt maxAttempts = false := by
  unfold shouldRetry
  by_cases hm : maxAttempts ≤ attempt
  · simp [hm]
  · simp [hm, hf, herr]

/-- A success reported by the attempt loop carries an attempt index beyond
the index the loop started from. -/
theorem performAux_succeeded_lt (env : EnvPrimsM) (cfg : RetryCfgM) (method : String)
    (expected : ExpectedStatus) (transport : Nat → TransportOutcome) (m : Nat) :
    ∀ rem attempt last r att,
      performAux env cfg method expected transport m attempt rem last =
        PerformResult.succeeded r att → attempt < att := by
  intro rem
  induction rem with
  | zero =>
    intro attempt last r att h
    simp [performAux] at h
  | succ n ih =>
    intro attempt last r att h
    simp only [performAux] at h
    split at h
    · split at h
      · cases h
        omega
      · split at h
        · exact Nat.lt_of_succ_lt (ih (attempt + 1) _ r att h)
        · cases h
    · split at h
      · cases h
      · split at h
        · exact Nat.lt_of_succ_lt (ih (attempt + 1) _ r att h)
        · cases h

/-! ## Claim C1 -/

/-- C1: for a fixed signing datetime, region, credentials, method, URL,
header set and body (and fixed platform digest primitives), two invocations
of `signRequest` produce identical results; in particular the emitted
`authorization` header value is identical — signing is a deterministic pure
function of its inputs. -/
theorem signRequest_deterministic (cp : CryptoM) (i j : SignRequestInput) (h : i = j) :
    signRequest cp i = signRequest cp j ∧
      headerGet (signRequest cp i).headers "authorization" =
        headerGet (signRequest cp j).headers "authorization" := by
  subst h
  exact ⟨rfl, rfl⟩

/-- Witness for C1 at a concrete signing input. -/
theorem signRequest_deterministic_witness :
    (let cp : CryptoM := ⟨fun _ => [0], fun _ _ => [1]⟩
     let i : SignRequestInput :=
       { method := "GET", urlHost := "bucket.s3.example.com", urlPathname := "/k.txt",
         urlQuery := [], region := "us-east-1",
         credentials := ⟨"AKIDEXAMPLE", "secret", none⟩, headers := emptyHeaders,
         body := BodyM.null, datetime := 1700000000000, unsignedPayload := true }
     signRequest cp i = signRequest cp i ∧
       headerGet (signRequest cp i).headers "authorization" =
         headerGet (signRequest cp i).headers "authorization") := by
  exact signRequest_deterministic _ _ _ rfl

/-! ## Claim C2 -/

/-- C2 counterexample: the claim asserts DELETE accepts {200, 202, 204}, but
`S3Client.del` passes `expectedStatus: [200, 204]`, so a 202 response to a
DELETE is not accepted (only `abortMultipart` accepts 202). -/
theorem del_status_202_not_accepted :
    expectedStatusDel = ExpectedStatus.list [200, 204] ∧
      matchesExpected 202 expectedStatusDel = false ∧
      matchesExpected 202 expectedStatusAbortMultipart = true := by
  decide

/-- C2 amended: the accepted sets are GET/HEAD {200, 304}, PUT and
multipart-complete {200, 412}, DELETE {200, 204}, multipart-abort
{200, 202, 204}, and a single expected status for every other operation; an
attempt of the perform loop yields the delivered response as success exactly
when its status is in the accepted set (otherwise the error path is taken). -/
theorem expected_status_sets_amended :
    (expectedStatusGet = ExpectedStatus.list [200, 304] ∧
     expectedStatusHead = ExpectedStatus.list [200, 304] ∧
     expectedStatusPut = ExpectedStatus.list [200, 412] ∧
     expectedStatusCompleteMultipart = ExpectedStatus.list [200, 412] ∧
     expectedStatusDel = ExpectedStatus.list [200, 204] ∧
     expectedStatusAbortMultipart = ExpectedStatus.list [200, 202, 204] ∧
     expectedStatusList = ExpectedStatus.single 200 ∧
     expectedStatusInitiateMultipart = ExpectedStatus.single 200 ∧
     expectedStatusUploadPart = ExpectedStatus.single 200) ∧
    ∀ (env : EnvPrimsM) (cfg : RetryCfgM) (method : String) (expected : ExpectedStatus)
      (transport : Nat → TransportOutcome) (m attempt rem : Nat) (last : Option ErrorV)
      (r : ResponseM),
      transport (attempt + 1) = TransportOutcome.response r →
      (matchesExpected r.status expected = true ↔
        performAux env cfg method expected transport m attempt (rem + 1) last =
          PerformResult.succeeded r (attempt + 1)) := by
  refine ⟨by decide, ?_⟩
  intro env cfg method expected transport m attempt rem last r htr
  constructor
  · intro hmatch
    simp [performAux, htr, hmatch]
  · intro hsucc
    by_contra hne
    have hfalse : matchesExpected r.status expected = false := by
      cases hmE : matchesExpected r.status expected
      · rfl
      · exact absurd hmE hne
    simp only [performAux, htr, hfalse, Bool.false_eq_true, if_false] at hsucc
    split at hsucc
    · have := performAux_succeeded_lt env cfg method expected transport m rem (attempt + 1)
        _ r (attempt + 1) hsucc
      omega
    · cases hsucc

/-- Witness for C2 at a concrete accepted response. -/
theorem expected_status_sets_amended_witness :
    (let r0 : ResponseM := ⟨"https://x", 200, "OK", emptyHeaders, none⟩
     let transport : Nat → TransportOutcome := fun _ => TransportOutcome.response r0
     let cfg : RetryCfgM := ⟨3, 100, none, none⟩
     let env : EnvPrimsM := ⟨fun _ => none, fun _ => none, 0⟩
     transport (0 + 1) = TransportOutcome.response r0 ∧
       (matchesExpected r0.status expectedStatusGet = true ↔
         performAux env cfg "GET" expectedStatusGet transport 3 0 (2 + 1) none =
           PerformResult.succeeded r0 (0 + 1))) := by
  exact ⟨rfl, expected_status_sets_amended.2 _ _ "GET" _ _ 3 0 2 none _ rfl⟩

/-! ## Claim C3 -/

/-- C3 counterexample: a decoded code of `HTTP503` (here with status 400)
makes the source's retriable flag true, while the claim's exhaustive
allow-list — which omits `HTTP503` — classifies it non-retriable. -/
theorem retriable_HTTP503_counterexample :
    determineErrorRetriable 400 (some "HTTP503") = true ∧
      claimRetriable 400 (some "HTTP503") = false := by
  decide

/-- C3 amended: the retriable flag is true iff the status is 429, or at
least 500 excluding 501 and 505, or the decoded code is non-empty and
matches — after trimming, case-insensitively — one of the claim's ten names
plus `HTTP503`. -/
theorem determineErrorRetriable_amended (status : Nat) (code : Option String) :
    determineErrorRetriable status code = true ↔
      status = 429 ∨ (500 ≤ status ∧ status ≠ 501 ∧ status ≠ 505) ∨
        ∃ c, code = some c ∧ c ≠ "" ∧
          (amendedRetriableCodes.any fun n => upperStr (trimWs c) = upperStr n) = true := by
  have hmap : amendedRetriableCodes.map (fun n => upperStr n) = RETRIABLE_ERROR_CODES := by
    decide
  have bridge : ∀ x : String,
      (RETRIABLE_ERROR_CODES.contains x = true) ↔
        (amendedRetriableCodes.any fun n => x = upperStr n) = true := by
    intro x
    rw [← hmap]
    constructor
    · intro h
      have hx : x ∈ amendedRetriableCodes.map (fun n => upperStr n) :=
        List.elem_iff.mp h
      rcases List.mem_map.mp hx with ⟨n, hn, hEq⟩
      exact List.any_eq_true.mpr ⟨n, hn, by simp [hEq]⟩
    · intro h
      rcases List.any_eq_true.mp h with ⟨n, hn, hEq⟩
      exact List.elem_iff.mpr
        (List.mem_map.mpr ⟨n, hn, (of_decide_eq_true hEq).symm⟩)
  unfold determineErrorRetriable
  by_cases h429 : status = 429
  · simp [h429]
  · by_cases h5 : 500 ≤ status ∧ status ≠ 501 ∧ status ≠ 505
    · simp [h429, h5]
    · rw [if_neg h429, if_neg h5]
      cases code with
      | none => simp [h429, h5]
      | some c =>
        dsimp only
        by_cases hempty : c = ""
        · simp [hempty, h429, h5]
        · rw [if_neg hempty]
          rw [bridge (upperStr (trimWs c))]
          constructor
          · intro h
            exact Or.inr (Or.inr ⟨c, rfl, hempty, h⟩)
          · rintro (h | h | ⟨c2, hc2, _, hany⟩)
            · exact absurd h h429
            · exact absurd h h5
            · cases hc2
              exact hany

/-! ## Claim C6 -/

/-- C6 counterexample: with base delay 1 at attempt 1 (raw = 1) and a random
draw of 0, the jittered delay is `Math.floor(1 / 2) = 0`, which lies below
the claim's lower bound `raw / 2 = 1 / 2`. -/
theorem computeBackoffDelay_below_half_raw :
    computeBackoffDelay 1 (some true) 1 0 = 0 ∧
      ((computeBackoffDelay 1 (some true) 1 0 : ℚ) <
        ((1 * 2 ^ (1 - 1) : Nat) : ℚ) / 2) := by
  have h : computeBackoffDelay 1 (some true) 1 0 = 0 := by
    unfold computeBackoffDelay
    norm_num
  refine ⟨h, ?_⟩
  rw [h]
  norm_num

/-- C6 amended: with integral base delay `b > 0` and attempt `n >= 1`, the
delay is exactly `raw = b * 2 ^ (n - 1)` when jitter is disabled, and lies in
`[Math.floor(raw / 2), raw]` (integer floor, not the exact half) when jitter
is enabled; and a retry-after value whose millisecond ceiling exceeds the
computed delay replaces it. -/
theorem computeBackoffDelay_amended (base attempt : Nat) (jitter : Option Bool) (r : ℚ)
    (hbase : 0 < base) (hatt : 1 ≤ attempt) (hr0 : 0 ≤ r) (hr1 : r < 1) :
    computeBackoffDelay base (some false) attempt r = base * 2 ^ (attempt - 1) ∧
      (jitter ≠ some false →
        base * 2 ^ (attempt - 1) / 2 ≤ computeBackoffDelay base jitter attempt r ∧
          computeBackoffDelay base jitter attempt r ≤ base * 2 ^ (attempt - 1)) ∧
      ∀ (computed : Nat) (q : ℚ), computed < Int.toNat ⌈q * 1000⌉ →
        selectDelay computed (some q) = Int.toNat ⌈q * 1000⌉ := by
  have hbne : ¬ base = 0 := Nat.pos_iff_ne_zero.mp hbase
  refine ⟨?_, ?_, ?_⟩
  · unfold computeBackoffDelay
    rw [if_neg hbne, if_pos rfl]
  · intro hjit
    unfold computeBackoffDelay
    rw [if_neg hbne, if_neg hjit]
    set raw := base * 2 ^ (attempt - 1) with hraw
    constructor
    · exact Nat.le_add_right _ _
    · have hfl : (⌊r * (((raw - raw / 2 : Nat) : ℚ) + 1)⌋).toNat ≤ raw - raw / 2 := by
        have hlt : r * (((raw - raw / 2 : Nat) : ℚ) + 1) < ((raw - raw / 2 : Nat) : ℚ) + 1 := by
          have hpos : (0 : ℚ) < ((raw - raw / 2 : Nat) : ℚ) + 1 := by positivity
          calc r * (((raw - raw / 2 : Nat) : ℚ) + 1) <
                1 * (((raw - raw / 2 : Nat) : ℚ) + 1) :=
              mul_lt_mul_of_pos_right hr1 hpos
            _ = ((raw - raw / 2 : Nat) : ℚ) + 1 := one_mul _
        have hz : ⌊r * (((raw - raw / 2 : Nat) : ℚ) + 1)⌋ < ((raw - raw / 2 : Nat) : ℤ) + 1 := by
          rw [Int.floor_lt]
          push_cast
          exact hlt
        exact Int.toNat_le.mpr (by omega)
      show raw / 2 + (⌊r * (((raw - raw / 2 : Nat) : ℚ) + 1)⌋).toNat ≤ raw
      omega
  · intro computed q h
    unfold selectDelay
    dsimp only
    rw [if_pos h]

/-- Witness for C6 at base delay 2, attempt 1, random draw 0, retry-after
3 seconds over a computed delay of 4 ms. -/
theorem computeBackoffDelay_amended_witness :
    (0 < 2 ∧ 1 ≤ 1 ∧ (0 : ℚ) ≤ 0 ∧ (0 : ℚ) < 1) ∧
      (computeBackoffDelay 2 (some false) 1 0 = 2 * 2 ^ (1 - 1) ∧
        (none ≠ some false →
          2 * 2 ^ (1 - 1) / 2 ≤ computeBackoffDelay 2 none 1 0 ∧
            computeBackoffDelay 2 none 1 0 ≤ 2 * 2 ^ (1 - 1)) ∧
        ∀ (computed : Nat) (q : ℚ), computed < Int.toNat ⌈q * 1000⌉ →
          selectDelay computed (some q) = Int.toNat ⌈q * 1000⌉) := by
  exact ⟨by norm_num, computeBackoffDelay_amended 2 1 none 0 (by norm_num) le_rfl le_rfl
    (by norm_num)⟩

/-! ## Claim C7 -/

/-- C7: on a PUT with a configured checksum algorithm and a stream body,
`requireOnPut = true` fails the call with a message naming the algorithm and
the stream reason before the dispatch continuation is ever consulted, and
`requireOnPut = false` skips the checksum step (the header set is returned
unchanged, so no checksum header is set) and the request proceeds. -/
theorem applyChecksum_stream_policy (sha256b64 : List Nat → String) (cfg : ChecksumCfgM)
    (method : String) (headers : HeadersM) (hmeth : upperStr method = "PUT")
    (halg : cfg.algorithm ≠ ChecksumAlg.cnone) :
    (cfg.requireOnPut = true →
      ∀ dispatch : HeadersM → Except String ResponseM,
        executeWithChecksum sha256b64 cfg method BodyM.stream headers dispatch =
          Except.error ("Unable to compute " ++ algName cfg.algorithm ++
            " checksum for PUT payload: body is a stream and cannot be buffered without consuming it.")) ∧
    (cfg.requireOnPut = false →
      applyChecksum sha256b64 cfg method BodyM.stream headers = Except.ok headers ∧
      ∀ dispatch : HeadersM → Except String ResponseM,
        executeWithChecksum sha256b64 cfg method BodyM.stream headers dispatch =
          dispatch headers) := by
  have hstr : " checksum for PUT payload: " ++
      (formatChecksumFailureReason ChecksumFailReason.stream ++ ".") =
      " checksum for PUT payload: body is a stream and cannot be buffered without consuming it." := by
    decide
  have happly : ∀ b : Bool, cfg.requireOnPut = b →
      applyChecksum sha256b64 cfg method BodyM.stream headers =
        (if b then
          Except.error ("Unable to compute " ++ algName cfg.algorithm ++
            " checksum for PUT payload: body is a stream and cannot be buffered without consuming it.")
        else Except.ok headers) := by
    intro b hb
    unfold applyChecksum
    rw [hmeth]
    rw [if_neg (by simp)]
    rw [if_neg halg]
    show (if cfg.requireOnPut then _ else _) = _
    rw [hb]
    cases b
    · rfl
    · rw [if_pos rfl, if_pos rfl]
      rw [← hstr]
      simp [String.append_assoc]
  constructor
  · intro hreq dispatch
    unfold executeWithChecksum
    rw [happly true hreq]
    rfl
  · intro hreq
    refine ⟨happly false hreq, fun dispatch => ?_⟩
    unfold executeWithChecksum
    rw [happly false hreq]
    rfl

/-- Witness for C7 with the sha256 algorithm required on PUT. -/
theorem applyChecksum_stream_policy_witness :
    (upperStr "PUT" = "PUT" ∧ ChecksumAlg.sha256 ≠ ChecksumAlg.cnone) ∧
      ((ChecksumCfgM.mk ChecksumAlg.sha256 true).requireOnPut = true →
        ∀ dispatch : HeadersM → Except String ResponseM,
          executeWithChecksum (fun _ => "") (ChecksumCfgM.mk ChecksumAlg.sha256 true)
              "PUT" BodyM.stream emptyHeaders dispatch =
            Except.error ("Unable to compute " ++ algName ChecksumAlg.sha256 ++
              " checksum for PUT payload: body is a stream and cannot be buffered without consuming it.")) := by
  exact ⟨⟨by decide, by decide⟩,
    (applyChecksum_stream_policy (fun _ => "") _ "PUT" emptyHeaders (by decide) (by decide)).1⟩

/-! ## Claim C8 -/

/-- C8: when a caller-supplied retriable predicate is configured and throws
at its consultation after a failed first attempt, the attempt is treated as
non-retriable: the loop stops after that single attempt and surfaces the
original error (the decoded `S3Error` for a disallowed response, the thrown
`Error` itself for a non-abort transport failure). -/
theorem perform_throwing_predicate (env : EnvPrimsM) (cfg : RetryCfgM) (method : String)
    (expected : ExpectedStatus) (transport : Nat → TransportOutcome)
    (f : Option ResponseM → ErrorV → Except String Bool) (hf : cfg.retriable = some f) :
    (∀ (r : ResponseM) (ex : String),
      transport 1 = TransportOutcome.response r →
      matchesExpected r.status expected = false →
      f (some r) (ErrorV.s3 (createError env r)) = Except.error ex →
      performModel env cfg method expected transport =
        PerformResult.thrown (ErrorV.s3 (createError env r)) 1) ∧
    (∀ (name msg ex : String),
      transport 1 = TransportOutcome.exception (ErrorV.err name msg) →
      name ≠ "AbortError" →
      f none (ErrorV.err name msg) = Except.error ex →
      performModel env cfg method expected transport =
        PerformResult.thrown (ErrorV.err name msg) 1) := by
  unfold performModel
  obtain ⟨k, hk⟩ : ∃ k, max 1 cfg.maxAttempts = k + 1 :=
    ⟨max 1 cfg.maxAttempts - 1, by omega⟩
  rw [hk]
  constructor
  · intro r ex htr hmE herr
    have hsr := shouldRetry_predicate_error cfg method (some r)
      (ErrorV.s3 (createError env r)) 1 (k + 1) f hf ex herr
    simp [performAux, htr, hmE, hsr]
  · intro name msg ex htr hname herr
    have habort : isAbortError (ErrorV.err name msg) = false := by
      simp [isAbortError, hname]
    have hsr := shouldRetry_predicate_error cfg method none
      (ErrorV.err name msg) 1 (k + 1) f hf ex herr
    simp [performAux, htr, habort, hsr, ensureError]

/-- Witness for C8 with a predicate that always throws, consulted after a
500 response to a GET expecting 200. -/
theorem perform_throwing_predicate_witness :
    (let r0 : ResponseM := ⟨"https://x", 500, "err", emptyHeaders, none⟩
     let f : Option ResponseM → ErrorV → Except String Bool := fun _ _ => Except.error "boom"
     let cfg : RetryCfgM := ⟨3, 100, none, some f⟩
     let env : EnvPrimsM := ⟨fun _ => none, fun _ => none, 0⟩
     let transport : Nat → TransportOutcome := fun _ => TransportOutcome.response r0
     cfg.retriable = some f ∧
       transport 1 = TransportOutcome.response r0 ∧
       matchesExpected r0.status (ExpectedStatus.single 200) = false ∧
       f (some r0) (ErrorV.s3 (createError env r0)) = Except.error "boom" ∧
       performModel env cfg "GET" (ExpectedStatus.single 200) transport =
         PerformResult.thrown (ErrorV.s3 (createError env r0)) 1) := by
  refine ⟨rfl, rfl, by decide, rfl, ?_⟩
  exact (perform_throwing_predicate _ _ "GET" _ _ _ rfl).1 _ "boom" rfl (by decide) rfl

/-! ## Sorting lemmas -/

/-- `insertLe` permutes the inserted element into the list. -/
theorem insertLe_perm (le : α → α → Bool) (x : α) :
    ∀ l : List α, (insertLe le x l).Perm (x :: l) := by
  intro l
  induction l with
  | nil => simp [insertLe]
  | cons y ys ih =>
    unfold insertLe
    by_cases h : le x y = true
    · rw [if_pos h]
    · rw [if_neg h]
      exact ((ih.cons y).trans (List.Perm.swap x y ys))

/-- `sortLe` permutes its input. -/
theorem sortLe_perm (le : α → α → Bool) :
    ∀ l : List α, (sortLe le l).Perm l := by
  intro l
  induction l with
  | nil => simp [sortLe]
  | cons x xs ih =>
    unfold sortLe
    exact (insertLe_perm le x (sortLe le xs)).trans (ih.cons x)

/-- Inserting into a sorted list keeps it sorted, for a total transitive
comparison. -/
theorem insertLe_sorted (le : α → α → Bool)
    (htot : ∀ a b, le a b = true ∨ le b a = true)
    (htrans : ∀ a b c, le a b = true → le b c = true → le a c = true) (x : α) :
    ∀ l : List α, l.Pairwise (fun a b => le a b = true) →
      (insertLe le x l).Pairwise (fun a b => le a b = true) := by
  intro l
  induction l with
  | nil => intro _; simp [insertLe]
  | cons y ys ih =>
    intro hp
    rcases List.pairwise_cons.mp hp with ⟨hy, hys⟩
    unfold insertLe
    by_cases h : le x y = true
    · rw [if_pos h]
      refine List.pairwise_cons.mpr ⟨?_, hp⟩
      intro z hz
      rcases List.mem_cons.mp hz with hzy | hz2
      · subst hzy; exact h
      · exact htrans x y z h (hy z hz2)
    · rw [if_neg h]
      refine List.pairwise_cons.mpr ⟨?_, ih hys⟩
      intro z hz
      rcases List.mem_cons.mp ((insertLe_perm le x ys).mem_iff.mp hz) with hzx | hzys
      · subst hzx
        rcases htot z y with h1 | h1
        · exact absurd h1 h
        · exact h1
      · exact hy z hzys

/-- `sortLe` sorts, for a total transitive comparison. -/
theorem sortLe_sorted (le : α → α → Bool)
    (htot : ∀ a b, le a b = true ∨ le b a = true)
    (htrans : ∀ a b c, le a b = true → le b c = true → le a c = true) :
    ∀ l : List α, (sortLe le l).Pairwise (fun a b => le a b = true) := by
  intro l
  induction l with
  | nil => simp [sortLe]
  | cons x xs ih =>
    unfold sortLe
    exact insertLe_sorted le htot htrans x (sortLe le xs) ih

/-- Sorting a sorted list leaves it unchanged. -/
theorem sortLe_of_sorted (le : α → α → Bool) :
    ∀ l : List α, l.Pairwise (fun a b => le a b = true) → sortLe le l = l := by
  intro l
  induction l with
  | nil => intro _; rfl
  | cons x xs ih =>
    intro hp
    rcases List.pairwise_cons.mp hp with ⟨hx, hxs⟩
    unfold sortLe
    rw [ih hxs]
    cases xs with
    | nil => rfl
    | cons y ys =>
      unfold insertLe
      rw [if_pos (hx y (by simp))]

/-! ## Multipart normalization lemmas -/

/-- `normalizePartNumber` accepts exactly the range [1, 10000]. -/
theorem normalizePartNumber_ok (v : Int) (h1 : 1 ≤ v) (h2 : v ≤ 10000) :
    normalizePartNumber v = Except.ok v := by
  unfold normalizePartNumber
  rw [if_neg (by omega)]

/-- Mapping `normalizePartNumber` over in-range parts is the identity. -/
theorem mapM_normalizePartNumber_ok (parts : List CompletedPart)
    (h : ∀ p ∈ parts, 1 ≤ p.partNumber ∧ p.partNumber ≤ 10000) :
    (parts.mapM fun p => (normalizePartNumber p.partNumber).map
      fun n => CompletedPart.mk n p.etag) = Except.ok parts := by
  induction parts with
  | nil => rfl
  | cons p ps ih =>
    have hp := h p (by simp)
    rw [List.mapM_cons, normalizePartNumber_ok p.partNumber hp.1 hp.2,
      ih fun q hq => h q (List.mem_cons_of_mem p hq)]
    rfl

/-- Distinct part numbers leave no adjacent duplicate after any ordering. -/
theorem nodup_no_adjacentDup : ∀ l : List CompletedPart,
    (l.map fun p => p.partNumber).Nodup → hasAdjacentDupPart l = false := by
  intro l
  induction l with
  | nil => intro _; rfl
  | cons a t ih =>
    intro h
    cases t with
    | nil => rfl
    | cons b t2 =>
      rw [List.map_cons] at h
      have h1 := (List.nodup_cons.mp h).1
      have h2 := (List.nodup_cons.mp h).2
      have hab : ¬ a.partNumber = b.partNumber := fun he => h1 (by simp [he])
      show (decide (a.partNumber = b.partNumber) || hasAdjacentDupPart (b :: t2)) = false
      simp only [Bool.or_eq_false_iff, decide_eq_false_iff_not]
      exact ⟨hab, ih h2⟩

/-- A sorted list without adjacent duplicates has strictly ascending part
numbers. -/
theorem sorted_noAdjacentDup_strict : ∀ l : List CompletedPart,
    l.Pairwise (fun a b => decide (a.partNumber ≤ b.partNumber) = true) →
    hasAdjacentDupPart l = false →
    (l.map fun p => p.partNumber).Pairwise (· < ·) := by
  intro l
  induction l with
  | nil => intro _ _; simp
  | cons a t ih =>
    intro hp hadj
    rcases List.pairwise_cons.mp hp with ⟨ha, ht⟩
    cases t with
    | nil => simp
    | cons b t2 =>
      have hsplit : ¬ a.partNumber = b.partNumber ∧ hasAdjacentDupPart (b :: t2) = false := by
        have h2 : (decide (a.partNumber = b.partNumber) || hasAdjacentDupPart (b :: t2)) = false :=
          hadj
        simpa only [Bool.or_eq_false_iff, decide_eq_false_iff_not] using h2
      have hab : a.partNumber < b.partNumber :=
        lt_of_le_of_ne (of_decide_eq_true (ha b (by simp))) hsplit.1
      refine List.pairwise_cons.mpr ⟨?_, ih ht hsplit.2⟩
      intro z hz
      rcases List.mem_map.mp hz with ⟨q, hq, hzq⟩
      subst hzq
      rcases List.mem_cons.mp hq with hqb | hq2
      · subst hqb; exact hab
      · exact lt_of_lt_of_le hab
          (of_decide_eq_true ((List.pairwise_cons.mp ht).1 q hq2))

/-- Binding a successful `Except` value. -/
theorem except_bind_ok {α β ε : Type} (a : α) (f : α → Except ε β) :
    (Except.ok a >>= f) = f a := rfl

/-- `normalizeCompletedParts` on a non-empty list of in-range parts reduces
to the duplicate check over the sorted list. -/
theorem normalizeCompletedParts_eq (parts : List CompletedPart) (hne : parts ≠ [])
    (hrange : ∀ p ∈ parts, 1 ≤ p.partNumber ∧ p.partNumber ≤ 10000) :
    normalizeCompletedParts parts =
      (if hasAdjacentDupPart
          (sortLe (fun a b : CompletedPart => a.partNumber ≤ b.partNumber) parts) then
        Except.error "Duplicate part numbers are not allowed."
      else Except.ok
        (sortLe (fun a b : CompletedPart => a.partNumber ≤ b.partNumber) parts)) := by
  unfold normalizeCompletedParts
  rw [if_neg hne, mapM_normalizePartNumber_ok parts hrange, except_bind_ok]

/-! ## Claim C4 -/

/-- C4: for a non-empty parts list with integral part numbers in [1, 10000],
a duplicated part number raises the validation error before the request
continuation is consulted; otherwise normalization succeeds with a
permutation of the input whose part numbers are strictly ascending, and the
serialized CompleteMultipartUpload body is built from that ascending list
regardless of the caller's order. -/
theorem completeMultipart_parts_normalization (uploadId : String) (parts : List CompletedPart)
    (huid : trimWs uploadId ≠ "") (hne : parts ≠ [])
    (hrange : ∀ p ∈ parts, 1 ≤ p.partNumber ∧ p.partNumber ≤ 10000) :
    (¬ (parts.map fun p => p.partNumber).Nodup →
      ∀ dispatch : String → Except String ResponseM,
        completeMultipartModel uploadId parts dispatch =
          Except.error "Duplicate part numbers are not allowed.") ∧
    ((parts.map fun p => p.partNumber).Nodup →
      ∃ sorted, normalizeCompletedParts parts = Except.ok sorted ∧
        sorted.Perm parts ∧
        ((sorted.map fun p => p.partNumber).Pairwise (· < ·)) ∧
        ∀ dispatch : String → Except String ResponseM,
          completeMultipartModel uploadId parts dispatch =
            match buildCompleteMultipartXml sorted with
            | Except.ok payload => dispatch payload
            | Except.error e => Except.error e) := by
  have hval : validateUploadId uploadId = Except.ok (trimWs uploadId) := by
    unfold validateUploadId
    rw [if_neg huid]
  have htot : ∀ a b : CompletedPart,
      decide (a.partNumber ≤ b.partNumber) = true ∨
        decide (b.partNumber ≤ a.partNumber) = true := by
    intro a b
    rcases le_total a.partNumber b.partNumber with h | h
    · exact Or.inl (decide_eq_true h)
    · exact Or.inr (decide_eq_true h)
  have htrans : ∀ a b c : CompletedPart,
      decide (a.partNumber ≤ b.partNumber) = true →
      decide (b.partNumber ≤ c.partNumber) = true →
      decide (a.partNumber ≤ c.partNumber) = true := by
    intro a b c h1 h2
    exact decide_eq_true (le_trans (of_decide_eq_true h1) (of_decide_eq_true h2))
  have hperm :=
    sortLe_perm (fun a b : CompletedPart => decide (a.partNumber ≤ b.partNumber)) parts
  have hsorted :=
    sortLe_sorted (fun a b : CompletedPart => decide (a.partNumber ≤ b.partNumber))
      htot htrans parts
  have heq := normalizeCompletedParts_eq parts hne hrange
  have hmodel : ∀ dispatch : String → Except String ResponseM,
      completeMultipartModel uploadId parts dispatch =
        (normalizeCompletedParts parts >>= fun normalized =>
          buildCompleteMultipartXml normalized >>= fun payload => dispatch payload) := by
    intro dispatch
    unfold completeMultipartModel
    rw [hval, except_bind_ok]
  constructor
  · intro hnd dispatch
    have hadj : hasAdjacentDupPart
        (sortLe (fun a b : CompletedPart => a.partNumber ≤ b.partNumber) parts) = true := by
      cases hadj2 : hasAdjacentDupPart
          (sortLe (fun a b : CompletedPart => a.partNumber ≤ b.partNumber) parts)
      · exfalso
        apply hnd
        have hstrict := sorted_noAdjacentDup_strict _ hsorted hadj2
        have hnodupSorted :
            ((sortLe (fun a b : CompletedPart => a.partNumber ≤ b.partNumber) parts).map
              fun p => p.partNumber).Nodup :=
          hstrict.imp fun h => ne_of_lt h
        exact ((hperm.map fun p => p.partNumber).nodup_iff).mp hnodupSorted
      · rfl
    rw [hmodel dispatch, heq, if_pos hadj]
    rfl
  · intro hnd
    have hadj : hasAdjacentDupPart
        (sortLe (fun a b : CompletedPart => a.partNumber ≤ b.partNumber) parts) = false := by
      apply nodup_no_adjacentDup
      exact ((hperm.map fun p => p.partNumber).nodup_iff).mpr hnd
    refine ⟨sortLe (fun a b : CompletedPart => a.partNumber ≤ b.partNumber) parts,
      ?_, hperm, sorted_noAdjacentDup_strict _ hsorted hadj, ?_⟩
    · rw [heq, if_neg (by simp [hadj])]
    · intro dispatch
      rw [hmodel dispatch, heq, if_neg (by simp [hadj]), except_bind_ok]
      cases buildCompleteMultipartXml
          (sortLe (fun a b : CompletedPart => a.partNumber ≤ b.partNumber) parts) <;> rfl

/-- Witness for C4 with parts supplied in descending order. -/
theorem completeMultipart_parts_normalization_witness :
    (trimWs "uid-1" ≠ "" ∧ ([⟨2, "e2"⟩, ⟨1, "e1"⟩] : List CompletedPart) ≠ [] ∧
      ∀ p ∈ ([⟨2, "e2"⟩, ⟨1, "e1"⟩] : List CompletedPart),
        1 ≤ p.partNumber ∧ p.partNumber ≤ 10000) ∧
      ((([⟨2, "e2"⟩, ⟨1, "e1"⟩] : List CompletedPart).map fun p => p.partNumber).Nodup →
        ∃ sorted, normalizeCompletedParts [⟨2, "e2"⟩, ⟨1, "e1"⟩] = Except.ok sorted ∧
          sorted.Perm [⟨2, "e2"⟩, ⟨1, "e1"⟩] ∧
          ((sorted.map fun p => p.partNumber).Pairwise (· < ·)) ∧
          ∀ dispatch : String → Except String ResponseM,
            completeMultipartModel "uid-1" [⟨2, "e2"⟩, ⟨1, "e1"⟩] dispatch =
              match buildCompleteMultipartXml sorted with
              | Except.ok payload => dispatch payload
              | Except.error e => Except.error e) := by
  refine ⟨⟨by decide, by decide, by decide⟩, ?_⟩
  exact (completeMultipart_parts_normalization "uid-1" _ (by decide) (by decide) (by decide)).2

/-! ## String replacement lemmas for the XML escaper -/

/-- A successful `hasPfx` match decomposes the text. -/
theorem hasPfx_decomp : ∀ pat l : List Char, hasPfx pat l = true →
    l = pat ++ l.drop pat.length := by
  intro pat
  induction pat with
  | nil => intro l _; simp
  | cons p ps ih =>
    intro l h
    cases l with
    | nil => cases h
    | cons c cs =>
      have h2 := hasPfx.eq_def (p :: ps) (c :: cs) ▸ h
      simp only [Bool.and_eq_true, decide_eq_true_eq] at h2
      rw [h2.1]
      simpa using ih cs h2.2

/-- Global replacement with a quote-free pattern and replacement preserves
the number of double quotes. -/
theorem replaceAllAux_count_quote (pat repl : List Char)
    (hp : pat.count '"' = 0) (hr : repl.count '"' = 0) :
    ∀ fuel l, (replaceAllAux pat repl fuel l).count '"' = l.count '"' := by
  intro fuel
  induction fuel with
  | zero => intro l; rfl
  | succ n ih =>
    intro l
    cases l with
    | nil => rfl
    | cons c rest =>
      by_cases hpf : hasPfx pat (c :: rest) = true
      · have hstep : replaceAllAux pat repl (n + 1) (c :: rest) =
            repl ++ replaceAllAux pat repl n ((c :: rest).drop pat.length) := by
          simp only [replaceAllAux]
          rw [if_pos hpf]
        rw [hstep, List.count_append, hr, ih]
        conv_rhs => rw [hasPfx_decomp pat (c :: rest) hpf]
        rw [List.count_append, hp]
      · have hstep : replaceAllAux pat repl (n + 1) (c :: rest) =
            c :: replaceAllAux pat repl n rest := by
          simp only [replaceAllAux]
          rw [if_neg hpf]
        rw [hstep]
        simp [List.count_cons, ih]

/-- `escapeXml` never creates or destroys a double quote (its four
replacement rules touch only `&`, `<`, `>` and the apostrophe). -/
theorem escapeXml_count_quote (s : String) :
    (escapeXml s).data.count '"' = s.data.count '"' := by
  unfold escapeXml replaceAllStr replaceAll
  rw [replaceAllAux_count_quote _ _ (by decide) (by decide)]
  rw [replaceAllAux_count_quote _ _ (by decide) (by decide)]
  rw [replaceAllAux_count_quote _ _ (by decide) (by decide)]
  rw [replaceAllAux_count_quote _ _ (by decide) (by decide)]

/-- A part whose etag trims non-empty serializes successfully. -/
theorem partXmlBlock_ok_of_nonempty (p : CompletedPart) (h : trimWs p.etag ≠ "") :
    ∃ b, partXmlBlock p = Except.ok b := by
  unfold partXmlBlock ensureQuotedEtag
  dsimp only
  rw [if_neg h]
  by_cases hq : startsWithChar '"' (trimWs p.etag) = true ∧ endsWithChar '"' (trimWs p.etag) = true
  · rw [if_pos hq]; exact ⟨_, rfl⟩
  · rw [if_neg hq]; exact ⟨_, rfl⟩

/-- Serializing a list containing an empty-trimming etag fails with the etag
validation message. -/
theorem mapM_partXmlBlock_error : ∀ l : List CompletedPart,
    (∃ p ∈ l, trimWs p.etag = "") →
    l.mapM partXmlBlock = Except.error "ETag cannot be empty." := by
  intro l
  induction l with
  | nil =>
    rintro ⟨p, hp, _⟩
    cases hp
  | cons a t ih =>
    rintro ⟨p, hp, hpe⟩
    rw [List.mapM_cons]
    by_cases hae : trimWs a.etag = ""
    · have ha : partXmlBlock a = Except.error "ETag cannot be empty." := by
        unfold partXmlBlock ensureQuotedEtag
        dsimp only
        rw [if_pos hae]
        rfl
      rw [ha]
      rfl
    · rcases partXmlBlock_ok_of_nonempty a hae with ⟨b, hb⟩
      have hpt : p ∈ t := by
        rcases List.mem_cons.mp hp with rfl | hpt
        · exact absurd hpe hae
        · exact hpt
      rw [hb, ih ⟨p, hpt, hpe⟩]
      rfl

/-- `buildCompleteMultipartXml` fails on an empty-trimming etag. -/
theorem buildCompleteMultipartXml_error (l : List CompletedPart)
    (h : ∃ p ∈ l, trimWs p.etag = "") :
    buildCompleteMultipartXml l = Except.error "ETag cannot be empty." := by
  unfold buildCompleteMultipartXml
  rw [mapM_partXmlBlock_error l h]
  rfl

/-! ## Claim C9 -/

/-- C9: in a completeMultipart call whose parts pass number validation, an
etag that is empty after trimming raises the validation error while building
the XML payload, before the request continuation is consulted; a non-empty
unquoted etag is wrapped in double quotes by `ensureQuotedEtag`, and the XML
escaping step preserves those quotes (it never touches a double quote). -/
theorem completeMultipart_empty_etag (uploadId : String) (parts : List CompletedPart)
    (huid : trimWs uploadId ≠ "") (hne : parts ≠ [])
    (hrange : ∀ p ∈ parts, 1 ≤ p.partNumber ∧ p.partNumber ≤ 10000)
    (hnd : (parts.map fun p => p.partNumber).Nodup) :
    ((∃ p ∈ parts, trimWs p.etag = "") →
      ∀ dispatch : String → Except String ResponseM,
        completeMultipartModel uploadId parts dispatch =
          Except.error "ETag cannot be empty.") ∧
    (∀ e : String, trimWs e ≠ "" →
      ¬ (startsWithChar '"' (trimWs e) = true ∧ endsWithChar '"' (trimWs e) = true) →
      ensureQuotedEtag e = Except.ok ("\"" ++ trimWs e ++ "\"")) ∧
    ∀ s : String, (escapeXml s).data.count '"' = s.data.count '"' := by
  have hval : validateUploadId uploadId = Except.ok (trimWs uploadId) := by
    unfold validateUploadId
    rw [if_neg huid]
  have hperm :=
    sortLe_perm (fun a b : CompletedPart => decide (a.partNumber ≤ b.partNumber)) parts
  have hadj : hasAdjacentDupPart
      (sortLe (fun a b : CompletedPart => a.partNumber ≤ b.partNumber) parts) = false := by
    apply nodup_no_adjacentDup
    exact ((hperm.map fun p => p.partNumber).nodup_iff).mpr hnd
  have hnorm : normalizeCompletedParts parts =
      Except.ok (sortLe (fun a b : CompletedPart => a.partNumber ≤ b.partNumber) parts) := by
    rw [normalizeCompletedParts_eq parts hne hrange, if_neg (by simp [hadj])]
  refine ⟨?_, ?_, escapeXml_count_quote⟩
  · rintro ⟨p, hp, hpe⟩ dispatch
    have hsortedmem : p ∈ sortLe (fun a b : CompletedPart => a.partNumber ≤ b.partNumber) parts :=
      hperm.mem_iff.mpr hp
    unfold completeMultipartModel
    rw [hval, except_bind_ok, hnorm, except_bind_ok,
      buildCompleteMultipartXml_error _ ⟨p, hsortedmem, hpe⟩]
    rfl
  · intro e hne2 hq
    unfold ensureQuotedEtag
    dsimp only
    rw [if_neg hne2, if_neg hq]

/-- Witness for C9 with a whitespace-only etag. -/
theorem completeMultipart_empty_etag_witness :
    (trimWs "uid-9" ≠ "" ∧ ([⟨1, " "⟩] : List CompletedPart) ≠ [] ∧
      (∀ p ∈ ([⟨1, " "⟩] : List CompletedPart), 1 ≤ p.partNumber ∧ p.partNumber ≤ 10000) ∧
      (([⟨1, " "⟩] : List CompletedPart).map fun p => p.partNumber).Nodup ∧
      (∃ p ∈ ([⟨1, " "⟩] : List CompletedPart), trimWs p.etag = "")) ∧
      ∀ dispatch : String → Except String ResponseM,
        completeMultipartModel "uid-9" [⟨1, " "⟩] dispatch =
          Except.error "ETag cannot be empty." := by
  refine ⟨⟨by decide, by decide, by decide, by decide, ⟨⟨1, " "⟩, by decide, by decide⟩⟩, ?_⟩
  exact (completeMultipart_empty_etag "uid-9" [⟨1, " "⟩] (by decide) (by decide) (by decide)
    (by decide)).1 ⟨⟨1, " "⟩, by decide, by decide⟩

/-- The pushing fold of the `<Contents>` loop collects exactly the entries
`parseContentEntry` accepts, in order. -/
theorem foldl_push_eq_filterMap :
    ∀ (secs : List String) (acc : List ObjectEntryM),
      List.foldl
        (fun acc sec =>
          match parseContentEntry sec with
          | some entry => acc ++ [entry]
          | none => acc)
        acc secs = acc ++ secs.filterMap parseContentEntry := by
  intro secs
  induction secs with
  | nil => intro acc; simp
  | cons a t ih =>
    intro acc
    rw [List.foldl_cons, List.filterMap_cons]
    cases hfa : parseContentEntry a <;> simp [hfa, ih]

/-! ## Claim C10 -/

/-- C10: the contents array of a parsed ListObjectsV2 response is the
filtered map of the `<Contents>` sections, and any section whose `Key`,
`Size`, `ETag` or `LastModified` tag is missing contributes nothing — it is
silently omitted rather than raising an error or producing a partial
entry. -/
theorem parseListObjectsV2_skips_incomplete_contents :
    (∀ xml : String, (parseListObjectsV2 xml).contents =
      (splitSections "Contents" xml).filterMap parseContentEntry) ∧
    ∀ sec : String,
      (extractTag sec "Key" = none ∨ extractTag sec "Size" = none ∨
        extractTag sec "ETag" = none ∨ extractTag sec "LastModified" = none) →
      parseContentEntry sec = none := by
  constructor
  · intro xml
    unfold parseListObjectsV2
    dsimp only
    rw [foldl_push_eq_filterMap]
    rfl
  · intro sec h
    unfold parseContentEntry
    rcases hKey : extractTag sec "Key" with _ | k
    · rfl
    · rcases hSize : extractTag sec "Size" with _ | sz
      · rfl
      · rcases hEtag : extractTag sec "ETag" with _ | et
        · rfl
        · rcases hLm : extractTag sec "LastModified" with _ | lm
          · rfl
          · exfalso
            rcases h with h | h | h | h <;> simp_all

/-- Witness for C10 at a `<Contents>` section missing its `Key` tag. -/
theorem parseListObjectsV2_skips_incomplete_contents_witness :
    (extractTag "<Size>1</Size><ETag>e</ETag><LastModified>d</LastModified>" "Key" = none ∨
      extractTag "<Size>1</Size><ETag>e</ETag><LastModified>d</LastModified>" "Size" = none ∨
      extractTag "<Size>1</Size><ETag>e</ETag><LastModified>d</LastModified>" "ETag" = none ∨
      extractTag "<Size>1</Size><ETag>e</ETag><LastModified>d</LastModified>" "LastModified" =
        none) ∧
      parseContentEntry "<Size>1</Size><ETag>e</ETag><LastModified>d</LastModified>" = none := by
  refine ⟨Or.inl (by decide), ?_⟩
  exact parseListObjectsV2_skips_incomplete_contents.2 _ (Or.inl (by decide))

/-! ## Character and string lemmas for header canonicalization -/

/-- `Char.ofNat` round-trips on valid low code points. -/
theorem toNat_ofNat_valid (n : Nat) (h : n < 0xD800) : (Char.ofNat n).toNat = n := by
  have hv : n.isValidChar := Or.inl h
  simp [Char.ofNat, hv, Char.ofNatAux, Char.toNat, UInt32.toNat, BitVec.toNat_ofNatLt]

/-- Characters are determined by their code points. -/
theorem char_eq_iff_toNat (a b : Char) : a = b ↔ a.toNat = b.toNat := by
  constructor
  · intro h; rw [h]
  · intro h
    have h2 : Char.ofNat a.toNat = Char.ofNat b.toNat := congrArg Char.ofNat h
    rwa [Char.ofNat_toNat, Char.ofNat_toNat] at h2

/-- The code-point bounds of an upper-case ASCII letter. -/
theorem upper_bounds_of_le {c : Char} (h : 'A' ≤ c ∧ c ≤ 'Z') :
    65 ≤ c.toNat ∧ c.toNat ≤ 90 := by
  have h1 := h.1
  have h2 := h.2
  rw [Char.le_def] at h1 h2
  exact ⟨h1, h2⟩

/-- ASCII lower-casing is idempotent. -/
theorem lowerChar_idem (c : Char) : lowerChar (lowerChar c) = lowerChar c := by
  unfold lowerChar
  by_cases h : 'A' ≤ c ∧ c ≤ 'Z'
  · rw [if_pos h]
    obtain ⟨h1, h2⟩ := upper_bounds_of_le h
    have htn : (Char.ofNat (c.toNat + 32)).toNat = c.toNat + 32 :=
      toNat_ofNat_valid _ (by omega)
    rw [if_neg ?_]
    intro hcon
    have h3 := (upper_bounds_of_le hcon).2
    omega
  · rw [if_neg h, if_neg h]

/-- A character whose code point avoids 9, 10, 13 and 32 is not ASCII
whitespace. -/
theorem isWsChar_eq_false_of_toNat (x : Char) (h9 : x.toNat ≠ 9) (h10 : x.toNat ≠ 10)
    (h13 : x.toNat ≠ 13) (h32 : x.toNat ≠ 32) : isWsChar x = false := by
  unfold isWsChar
  simp only [Bool.or_eq_false_iff, decide_eq_false_iff_not]
  refine ⟨⟨⟨?_, ?_⟩, ?_⟩, ?_⟩ <;> intro he <;> rw [char_eq_iff_toNat] at he
  · exact h32 (by rw [he]; rfl)
  · exact h9 (by rw [he]; rfl)
  · exact h13 (by rw [he]; rfl)
  · exact h10 (by rw [he]; rfl)

/-- ASCII lower-casing does not change whitespace-ness. -/
theorem isWsChar_lowerChar (c : Char) : isWsChar (lowerChar c) = isWsChar c := by
  unfold lowerChar
  by_cases h : 'A' ≤ c ∧ c ≤ 'Z'
  · rw [if_pos h]
    obtain ⟨h1, h2⟩ := upper_bounds_of_le h
    have htn : (Char.ofNat (c.toNat + 32)).toNat = c.toNat + 32 :=
      toNat_ofNat_valid _ (by omega)
    have hl : isWsChar (Char.ofNat (c.toNat + 32)) = false :=
      isWsChar_eq_false_of_toNat _ (by omega) (by omega) (by omega) (by omega)
    have hr : isWsChar c = false :=
      isWsChar_eq_false_of_toNat _ (by omega) (by omega) (by omega) (by omega)
    rw [hl, hr]
  · rw [if_neg h]

/-- ASCII lower-casing of strings is idempotent. -/
theorem lowerStr_idem (s : String) : lowerStr (lowerStr s) = lowerStr s := by
  unfold lowerStr
  simp [List.map_map, Function.comp_def, lowerChar_idem]

/-- Lower-casing keeps a string non-empty. -/
theorem lowerStr_ne_empty (s : String) (h : s ≠ "") : lowerStr s ≠ "" := by
  intro hcon
  apply h
  have hdata : (s.data.map lowerChar) = [] := congrArg String.data hcon
  have : s.data = [] := List.map_eq_nil_iff.mp hdata
  cases s
  exact congrArg String.mk this

/-- Lower-casing keeps a string whitespace-free. -/
theorem lowerStr_nows (s : String) (h : ∀ c ∈ s.data, isWsChar c = false) :
    ∀ c ∈ (lowerStr s).data, isWsChar c = false := by
  intro c hc
  rcases List.mem_map.mp hc with ⟨d, hd, rfl⟩
  rw [isWsChar_lowerChar]
  exact h d hd

/-- `dropLeadWs` is the identity on whitespace-free text. -/
theorem dropLeadWs_of_nows : ∀ l : List Char, (∀ c ∈ l, isWsChar c = false) →
    dropLeadWs l = l := by
  intro l h
  cases l with
  | nil => rfl
  | cons c rest =>
    unfold dropLeadWs
    rw [h c (by simp)]
    simp

/-- Trimming is the identity on whitespace-free strings. -/
theorem trimWs_of_nows (s : String) (h : ∀ c ∈ s.data, isWsChar c = false) :
    trimWs s = s := by
  unfold trimWs trimChars
  rw [dropLeadWs_of_nows s.data h]
  rw [dropLeadWs_of_nows s.data.reverse (fun c hc => h c (List.mem_reverse.mp hc))]
  cases s
  simp

/-- The character-list comparison underlying `strLe` is total. -/
theorem strLe_go_total : ∀ xs ys : List Char, strLe.go xs ys = true ∨ strLe.go ys xs = true := by
  intro xs
  induction xs with
  | nil => intro ys; exact Or.inl rfl
  | cons x xs ih =>
    intro ys
    cases ys with
    | nil => exact Or.inr rfl
    | cons y ys =>
      by_cases hxy : x = y
      · subst hxy
        rcases ih ys with h | h
        · exact Or.inl (by simp [strLe.go, h])
        · exact Or.inr (by simp [strLe.go, h])
      · rcases lt_or_gt_of_ne hxy with h | h
        · exact Or.inl (by simp [strLe.go, hxy, h])
        · exact Or.inr (by simp [strLe.go, Ne.symm hxy, h])

/-- The character-list comparison underlying `strLe` is transitive. -/
theorem strLe_go_trans : ∀ xs ys zs : List Char,
    strLe.go xs ys = true → strLe.go ys zs = true → strLe.go xs zs = true := by
  intro xs
  induction xs with
  | nil => intro ys zs _ _; rfl
  | cons x xs ih =>
    intro ys zs h1 h2
    cases ys with
    | nil => cases h1
    | cons y ys =>
      cases zs with
      | nil => cases h2
      | cons z zs =>
        by_cases hxy : x = y <;> by_cases hyz : y = z
        · subst hxy; subst hyz
          simp only [strLe.go, if_pos rfl] at h1 h2 ⊢
          exact ih ys zs h1 h2
        · subst hxy
          simp only [strLe.go, if_neg hyz] at h2
          simp only [strLe.go, if_neg hyz]
          exact h2
        · subst hyz
          simp only [strLe.go, if_neg hxy] at h1
          simp only [strLe.go, if_neg hxy]
          exact h1
        · simp only [strLe.go, if_neg hxy] at h1
          simp only [strLe.go, if_neg hyz] at h2
          have hxz : x < z := lt_trans (of_decide_eq_true h1) (of_decide_eq_true h2)
          simp only [strLe.go, if_neg (ne_of_lt hxz), decide_eq_true_eq]
          exact hxz

/-- `strLe` is total. -/
theorem strLe_total (a b : String) : strLe a b = true ∨ strLe b a = true :=
  strLe_go_total a.data b.data

/-- `strLe` is transitive. -/
theorem strLe_trans (a b c : String) (h1 : strLe a b = true) (h2 : strLe b c = true) :
    strLe a c = true :=
  strLe_go_trans a.data b.data c.data h1 h2

/-! ## Header-set lemmas -/

/-- The entries of a header set built by successive appends. -/
theorem headersOf_entries (l : List (String × String)) :
    (headersOf l).entries = l.map fun p => (lowerStr p.1, trimWs p.2) := by
  have aux : ∀ (t : List (String × String)) (h : HeadersM),
      (t.foldl (fun acc e => headerAppend acc e.1 e.2) h).entries =
        h.entries ++ t.map fun p => (lowerStr p.1, trimWs p.2) := by
    intro t
    induction t with
    | nil => intro h; simp
    | cons a r ih =>
      intro h
      rw [List.foldl_cons, ih]
      simp [headerAppend]
  simpa [headersOf, emptyHeaders] using aux l emptyHeaders

/-- The iteration names of a header set built by appends. -/
theorem headerNames_headersOf (l : List (String × String)) :
    headerNames (headersOf l) = sortLe strLe ((l.map fun p => lowerStr p.1).dedup) := by
  unfold headerNames
  rw [headersOf_entries, List.map_map]
  rfl

/-- The raw values of a lower-cased name in a header set built by appends. -/
theorem headerValues_headersOf (l : List (String × String)) (n : String)
    (hn : lowerStr n = n) :
    headerValues (headersOf l) n =
      (l.filter fun p => lowerStr p.1 = n).map fun p => trimWs p.2 := by
  unfold headerValues
  rw [headersOf_entries, hn, List.filter_map, List.map_map]
  rfl

/-- Lookup in an association list keyed by distinct names. -/
theorem find_map_pairs (g : String → List String) :
    ∀ (names : List String) (k : String), names.Nodup → k ∈ names →
      (names.map fun n => (n, g n)).find? (fun e => e.1 = k) = some (k, g k) := by
  intro names
  induction names with
  | nil => intro k _ hk; cases hk
  | cons a t ih =>
    intro k hnd hk
    rw [List.map_cons]
    by_cases hak : a = k
    · subst hak
      rw [List.find?_cons_of_pos _ (by simp)]
    · rw [List.find?_cons_of_neg _ (by simp [hak])]
      refine ih k (List.nodup_cons.mp hnd).2 ?_
      rcases List.mem_cons.mp hk with rfl | h
      · exact absurd rfl hak
      · exact h

/-- Folding `canonicalizeStep` over pairs with valid, already-normalized,
distinct names appends one singleton group per pair. -/
theorem canonicalizeStep_fold :
    ∀ (pairs : List (String × String)) (acc : List (String × List String)),
      (∀ p ∈ pairs, p.1 ≠ "" ∧ trimWs p.1 = p.1 ∧ lowerStr p.1 = p.1) →
      (∀ p ∈ pairs, ∀ e ∈ acc, e.1 ≠ p.1) →
      pairs.Pairwise (fun a b => a.1 ≠ b.1) →
      pairs.foldl canonicalizeStep acc =
        acc ++ pairs.map fun kv => (kv.1, [normalizeHeaderValue kv.2]) := by
  intro pairs
  induction pairs with
  | nil => intro acc _ _ _; simp
  | cons kv rest ih =>
    intro acc hgood hacc hpw
    obtain ⟨hne, htrim, hlower⟩ := hgood kv (by simp)
    have hany : acc.any (fun e => decide (e.1 = kv.1)) = false := by
      apply List.any_eq_false.mpr
      intro e he
      simpa using hacc kv (by simp) e he
    have hstep : canonicalizeStep acc kv = acc ++ [(kv.1, [normalizeHeaderValue kv.2])] := by
      unfold canonicalizeStep
      dsimp only
      rw [htrim, hlower, if_neg hne, hany]
      simp
    rw [List.foldl_cons, hstep,
      ih (acc ++ [(kv.1, [normalizeHeaderValue kv.2])])
        (fun p hp => hgood p (List.mem_cons_of_mem _ hp))
        ?_ (List.pairwise_cons.mp hpw).2]
    · simp
    · intro p hp e he
      rcases List.mem_append.mp he with he1 | he2
      · exact hacc p (List.mem_cons_of_mem _ hp) e he1
      · rcases List.mem_singleton.mp he2 with rfl
        exact (List.pairwise_cons.mp hpw).1 p hp

/-! ## Claim C5 -/

/-- C5 counterexample: appending the values `"a"` and `""` under one name,
the canonical block normalizes the ", "-joined value and so trims the
trailing space away (`x-a:a,`), while the claim's reading — normalize each
value, then join with ", " — yields `x-a:a, `.  The two disagree. -/
theorem canonicalizeHeaders_per_value_counterexample :
    (canonicalizeHeaders (headersOf [("X-A", "a"), ("x-a", "")])).1 = "x-a:a,\n" ∧
      claimCanonicalHeadersBlock [("X-A", "a"), ("x-a", "")] = "x-a:a, \n" ∧
      (canonicalizeHeaders (headersOf [("X-A", "a"), ("x-a", "")])).1 ≠
        claimCanonicalHeadersBlock [("X-A", "a"), ("x-a", "")] := by
  decide

/-- C5 amended: for every header set with valid header names, the canonical
block lower-cases the names, sorts them, joins a name's values (each trimmed
at insertion) with ", ", and applies the trim-and-collapse normalization to
the joined value — equivalently per-value normalization followed by the
", "-join except that a trailing empty value loses the separator's space;
the signed-header list is the ";"-join of the same sorted names. -/
theorem canonicalizeHeaders_amended (l : List (String × String))
    (hnames : ∀ p ∈ l, validHeaderName p.1) :
    canonicalizeHeaders (headersOf l) =
      (amendedCanonicalHeadersBlock l, amendedSignedHeadersList l) := by
  have hmemX : ∀ n ∈ sortLe strLe ((l.map fun p => lowerStr p.1).dedup),
      ∃ p ∈ l, n = lowerStr p.1 := by
    intro n hn
    have h2 : n ∈ (l.map fun p => lowerStr p.1).dedup :=
      ((sortLe_perm strLe _).mem_iff).mp hn
    rcases List.mem_map.mp (List.mem_dedup.mp h2) with ⟨p, hp, hEq⟩
    exact ⟨p, hp, hEq.symm⟩
  have hgoodName : ∀ n ∈ sortLe strLe ((l.map fun p => lowerStr p.1).dedup),
      n ≠ "" ∧ trimWs n = n ∧ lowerStr n = n := by
    intro n hn
    rcases hmemX n hn with ⟨p, hp, rfl⟩
    have hv := hnames p hp
    exact ⟨lowerStr_ne_empty _ hv.1, trimWs_of_nows _ (lowerStr_nows _ hv.2),
      lowerStr_idem _⟩
  have hnd : (sortLe strLe ((l.map fun p => lowerStr p.1).dedup)).Nodup :=
    ((sortLe_perm strLe _).nodup_iff).mpr (List.nodup_dedup _)
  have hsortedNames :
      (sortLe strLe ((l.map fun p => lowerStr p.1).dedup)).Pairwise
        (fun a b => strLe a b = true) :=
    sortLe_sorted strLe strLe_total strLe_trans _
  have hforEach : headersForEach (headersOf l) =
      (sortLe strLe ((l.map fun p => lowerStr p.1).dedup)).map fun n =>
        (n, joinStr ", " (headerValues (headersOf l) n)) := by
    unfold headersForEach
    rw [headerNames_headersOf]
  unfold canonicalizeHeaders
  rw [hforEach,
    canonicalizeStep_fold _ []
      (by
        intro p hp
        rcases List.mem_map.mp hp with ⟨n, hn, rfl⟩
        exact hgoodName n hn)
      (by intro p _ e he; cases he)
      (by
        rw [List.pairwise_map]
        exact hnd)]
  rw [List.nil_append, List.map_map]
  dsimp only
  have hkeys : ((sortLe strLe ((l.map fun p => lowerStr p.1).dedup)).map
      ((fun kv => (kv.1, [normalizeHeaderValue kv.2])) ∘ fun n =>
        (n, joinStr ", " (headerValues (headersOf l) n)))).map (fun e => e.1) =
      sortLe strLe ((l.map fun p => lowerStr p.1).dedup) := by
    rw [List.map_map]
    exact List.map_id _
  rw [hkeys, sortLe_of_sorted strLe _ hsortedNames]
  unfold amendedCanonicalHeadersBlock amendedSignedHeadersList
  dsimp only
  refine Prod.ext ?_ rfl
  dsimp only
  congr 1
  congr 1
  apply List.map_congr_left
  intro k hk
  have hfind := find_map_pairs
    (fun n => [normalizeHeaderValue (joinStr ", " (headerValues (headersOf l) n))])
    (sortLe strLe ((l.map fun p => lowerStr p.1).dedup)) k hnd hk
  rw [show ((fun kv => (kv.1, [normalizeHeaderValue kv.2])) ∘ fun n =>
      (n, joinStr ", " (headerValues (headersOf l) n))) =
      fun n => (n, [normalizeHeaderValue (joinStr ", " (headerValues (headersOf l) n))])
    from rfl]
  rw [hfind]
  dsimp only
  rw [headerValues_headersOf l k (hgoodName k hk).2.2]
  rfl

/-- Witness for C5 at a concrete two-name header set. -/
theorem canonicalizeHeaders_amended_witness :
    (∀ p ∈ [("Host", "example.com"), ("X-B", " v  w ")], validHeaderName p.1) ∧
      canonicalizeHeaders (headersOf [("Host", "example.com"), ("X-B", " v  w ")]) =
        (amendedCanonicalHeadersBlock [("Host", "example.com"), ("X-B", " v  w ")],
          amendedSignedHeadersList [("Host", "example.com"), ("X-B", " v  w ")]) := by
  exact ⟨by decide, canonicalizeHeaders_amended _ (by decide)⟩
